import Mathlib

/-!
Verification of the dpark scheduler (`dpark/schedule.py`).

The Python source is shallowly embedded: Python `dict`s become association
lists, Python object references to stages become integer stage ids stored in
an `idToStage` arena, and stateful methods become explicit state-passing
functions.  Datasets (RDDs) are modelled as finite lineage trees whose node
ids play the role of Python object ids (the DFS `visited` sets of the source
are kept, so sharing in the Python object graph is treated exactly as the
source treats it: by id).
-/

set_option linter.unusedVariables false

namespace DparkSchedule

/-! ## Association lists (Python dicts) -/

/-- Lookup in an association list, the model of Python `d.get(k)` /
`k in d`. -/
def alookup {α β : Type _} [DecidableEq α] (m : List (α × β)) (k : α) : Option β :=
  match m with
  | [] => none
  | (k', v) :: rest => if k' = k then some v else alookup rest k

/-- Remove every binding of `k`, the model of Python `del d[k]` (the raising
behaviour is handled by callers). -/
def aerase {α β : Type _} [DecidableEq α] (m : List (α × β)) (k : α) : List (α × β) :=
  m.filter (fun p => decide (p.1 ≠ k))

/-- Overwrite the binding of `k`, the model of Python `d[k] = v`. -/
def aset {α β : Type _} [DecidableEq α] (m : List (α × β)) (k : α) (v : β) : List (α × β) :=
  (k, v) :: aerase m k

theorem alookup_aset_self {α β : Type _} [DecidableEq α] (m : List (α × β)) (k : α) (v : β) :
    alookup (aset m k v) k = some v := by
  simp [aset, alookup]

theorem alookup_aerase {α β : Type _} [DecidableEq α] (m : List (α × β)) (k k' : α) :
    alookup (aerase m k) k' = if k = k' then none else alookup m k' := by
  induction m with
  | nil =>
    simp only [aerase, List.filter_nil, alookup]
    split <;> rfl
  | cons p rest ih =>
    obtain ⟨a, b⟩ := p
    by_cases h1 : a = k
    · subst h1
      have hh : aerase ((a, b) :: rest) a = aerase rest a := by
        simp [aerase, List.filter_cons]
      rw [hh, ih]
      by_cases h2 : a = k'
      · simp [h2]
      · simp [alookup, h2]
    · have hh : aerase ((a, b) :: rest) k = (a, b) :: aerase rest k := by
        simp [aerase, List.filter_cons, h1]
      rw [hh]
      by_cases h2 : a = k'
      · subst h2
        have hk : ¬ k = a := fun h => h1 h.symm
        simp [alookup, hk]
      · simp [alookup, h2, ih]

theorem alookup_aset_ne {α β : Type _} [DecidableEq α] (m : List (α × β)) (k k' : α) (v : β)
    (h : k ≠ k') : alookup (aset m k v) k' = alookup m k' := by
  simp [aset, alookup, h, alookup_aerase]

/-! ## The lineage data model

`RDD V` is a dataset whose partitions hold values of type `V`.  The fields
mirror the collaborator surface the scheduler uses (`dpark/schedule.py`
relies on `r.id`, `r.shouldCache`, `len(r)`, `r.dependencies`,
`r.preferredLocations(r.splits[p])` and `r.iterator(split)`).  A dependency
is narrow (`none`) or a shuffle dependency carrying its `shuffleId`
(`some sid`).  `prefs.getD p []` models `preferredLocations(splits[p])` and
`iterData.getD p []` models `iterator(splits[p])`. -/
inductive RDD (V : Type) : Type where
  | node (id : Nat) (shouldCache : Bool) (numParts : Nat)
      (prefs : List (List String)) (iterData : List (List V))
      (deps : List (Option Nat × RDD V)) : RDD V

def RDD.id {V : Type} : RDD V → Nat
  | .node i _ _ _ _ _ => i

def RDD.shouldCache {V : Type} : RDD V → Bool
  | .node _ c _ _ _ _ => c

/-- `len(rdd)`, the number of partitions. -/
def RDD.numParts {V : Type} : RDD V → Nat
  | .node _ _ n _ _ _ => n

def RDD.prefs {V : Type} : RDD V → List (List String)
  | .node _ _ _ ps _ _ => ps

def RDD.iterData {V : Type} : RDD V → List (List V)
  | .node _ _ _ _ its _ => its

def RDD.deps {V : Type} : RDD V → List (Option Nat × RDD V)
  | .node _ _ _ _ _ ds => ds

/-- `rdd.preferredLocations(rdd.splits[p])` (`DAGScheduler.getPreferredLocs`). -/
def RDD.prefAt {V : Type} (r : RDD V) (p : Nat) : List String :=
  r.prefs.getD p []

/-- `rdd.iterator(rdd.splits[p])`: the sequence of values of partition `p`. -/
def RDD.iterAt {V : Type} (r : RDD V) (p : Nat) : List V :=
  r.iterData.getD p []

/-! ## Stages -/

/-- `Stage` of `schedule.py`: parent stages are held by id (object
references in the source; stage ids are process-unique), the outgoing
shuffle dependency is its `shuffleId` or `none` for a result stage. -/
structure Stage (V : Type) where
  id : Nat
  rdd : RDD V
  shuffleDep : Option Nat
  parents : List Nat
  numPartitions : Nat
  outputLocs : List (List String)

/-- `Stage.__init__`: `numPartitions = len(rdd)`,
`outputLocs = [[] for i in range(numPartitions)]`.  The fresh id is supplied
by the caller (the source draws it from the class counter `Stage.nextId`,
modelled as scheduler state). -/
def Stage.make {V : Type} (id : Nat) (rdd : RDD V) (shuffleDep : Option Nat)
    (parents : List Nat) : Stage V :=
  { id := id, rdd := rdd, shuffleDep := shuffleDep, parents := parents,
    numPartitions := rdd.numParts,
    outputLocs := List.replicate rdd.numParts [] }

/-- `Stage.isAvailable`: `if not self.parents and self.shuffleDep == None:
return True; return all(self.outputLocs)`. -/
def Stage.isAvailable {V : Type} (s : Stage V) : Bool :=
  if s.parents.isEmpty && s.shuffleDep.isNone then true
  else s.outputLocs.all (fun l => !l.isEmpty)

/-- `Stage.addOutputLoc`: `self.outputLocs[partition].append(host)`. -/
def Stage.addOutputLoc {V : Type} (s : Stage V) (partition : Nat) (host : String) :
    Stage V :=
  { s with outputLocs :=
      s.outputLocs.set partition (s.outputLocs.getD partition [] ++ [host]) }

/-- C4: a stage is available iff it has no parents and no shuffle dependency,
or every entry of `outputLocs` is non-empty; and a freshly built stage over a
dataset with zero partitions is available (the `all` runs over an empty
list). -/
theorem stage_isAvailable_iff {V : Type} (s : Stage V) (id : Nat) (rdd : RDD V)
    (sd : Option Nat) (ps : List Nat) (h0 : rdd.numParts = 0) :
    (s.isAvailable = true ↔
      ((s.parents = [] ∧ s.shuffleDep = none) ∨ ∀ l ∈ s.outputLocs, l ≠ [])) ∧
    (Stage.make id rdd sd ps).isAvailable = true := by
  constructor
  · constructor
    · intro h
      by_cases hp : (s.parents.isEmpty && s.shuffleDep.isNone) = true
      · left
        rcases Bool.and_eq_true_iff.mp hp with ⟨h1, h2⟩
        exact ⟨List.isEmpty_iff.mp h1, Option.isNone_iff_eq_none.mp h2⟩
      · right
        simp only [Stage.isAvailable, hp, if_false, Bool.false_eq_true,
          List.all_eq_true] at h
        intro l hl
        have := h l hl
        simpa [List.isEmpty_iff] using this
    · intro h
      rcases h with h | h
      · simp [Stage.isAvailable, h.1, h.2]
      · by_cases hp : (s.parents.isEmpty && s.shuffleDep.isNone) = true
        · simp [Stage.isAvailable, hp]
        · simp only [Stage.isAvailable, hp, if_false, Bool.false_eq_true,
            List.all_eq_true]
          intro l hl
          have := h l hl
          simpa [List.isEmpty_iff] using this
  · simp [Stage.make, Stage.isAvailable, h0]

/-- Witness for C4 at a concrete stage: a result stage with a parent but
fully populated output locations is available, and a 0-partition dataset's
stage is available. -/
theorem stage_isAvailable_iff_witness :
    (({ id := 1,
        rdd := RDD.node 1 false 1 [] [] [],
        shuffleDep := some 7,
        parents := [2],
        numPartitions := 1,
        outputLocs := [["h1"]] } : Stage Nat).isAvailable = true ↔
      ((([2] : List Nat) = [] ∧ (some 7 : Option Nat) = none) ∨
        ∀ l ∈ [["h1"]], l ≠ ([] : List String))) ∧
    (Stage.make 3 (RDD.node 2 false 0 [] [] []) none ([] : List Nat) :
      Stage Nat).isAvailable = true :=
  stage_isAvailable_iff _ 3 (RDD.node 2 false 0 [] [] []) none [] rfl

/-! ## DAG scheduler state

`DAGScheduler.__init__` keeps `idToStage`, `shuffleToMapStage` and
`cacheLocs`; `Stage.nextId` is the process-wide stage-id counter. -/

structure SchedState (V : Type) where
  nextStageId : Nat
  idToStage : List (Nat × Stage V)
  shuffleToMapStage : List (Nat × Nat)
  cacheLocs : List (Nat × List (List String))

/-- Add to a Python `set` of stages (identity = stage id, which is unique),
keeping first-insertion order. -/
def insertIfAbsent (l : List Nat) (x : Nat) : List Nat :=
  if x ∈ l then l else l ++ [x]

/-- `DAGScheduler.getCacheLocs`: `self.cacheLocs.get(rdd.id, [[] ...])`. -/
def getCacheLocs {V : Type} (s : SchedState V) (r : RDD V) : List (List String) :=
  match alookup s.cacheLocs r.id with
  | some ls => ls
  | none => List.replicate r.numParts []

theorem sizeOf_deps_lt {V : Type} (r : RDD V) : sizeOf r.deps < sizeOf r := by
  cases r with
  | node i c n ps its ds => simp [RDD.deps]

mutual

/-- `DAGScheduler.getShuffleMapStage`: memoized lookup in
`shuffleToMapStage`, creating the stage through `newStage` on a miss.  A
shuffle dependency is passed as its `shuffleId` `sid` and its `rdd` `r`;
the returned stage is its arena id. -/
def getShuffleMapStage {V : Type} (s : SchedState V) (sid : Nat) (r : RDD V) :
    Nat × SchedState V :=
  match alookup s.shuffleToMapStage sid with
  | some st => (st, s)
  | none =>
    let p := newStage s r (some sid)
    (p.1, { p.2 with shuffleToMapStage := aset p.2.shuffleToMapStage sid p.1 })
termination_by (sizeOf r, 3)
decreasing_by exact Prod.Lex.right _ (by omega)

/-- `DAGScheduler.newStage`: build the stage with its parent stages and
register it under a fresh id. -/
def newStage {V : Type} (s : SchedState V) (r : RDD V) (shuffleDep : Option Nat) :
    Nat × SchedState V :=
  let q := getParentStages s r
  let i := q.2.nextStageId + 1
  let stage := Stage.make i r shuffleDep q.1
  (i, { q.2 with nextStageId := i, idToStage := aset q.2.idToStage i stage })
termination_by (sizeOf r, 2)
decreasing_by exact Prod.Lex.right _ (by omega)

/-- `DAGScheduler.getParentStages`: DFS from `r` with fresh `visited` and
`parents` sets. -/
def getParentStages {V : Type} (s : SchedState V) (r : RDD V) :
    List Nat × SchedState V :=
  let t := parentVisit s [] [] r
  (t.2.1, t.2.2)
termination_by (sizeOf r, 1)
decreasing_by exact Prod.Lex.right _ (by omega)

/-- The inner `visit` of `getParentStages` (threads `visited` and
`parents`).  The `cacheTracker.registerRDD` call on a `shouldCache` dataset
touches only the external cache tracker and is not part of the state we
track. -/
def parentVisit {V : Type} (s : SchedState V) (visited : List Nat)
    (parents : List Nat) (r : RDD V) : List Nat × List Nat × SchedState V :=
  if r.id ∈ visited then (visited, parents, s)
  else parentVisitDeps s (r.id :: visited) parents r.deps
termination_by (sizeOf r, 0)
decreasing_by exact Prod.Lex.left _ _ (sizeOf_deps_lt r)

/-- The `for dep in r.dependencies` loop of `getParentStages.visit`. -/
def parentVisitDeps {V : Type} (s : SchedState V) (visited : List Nat)
    (parents : List Nat) (deps : List (Option Nat × RDD V)) :
    List Nat × List Nat × SchedState V :=
  match deps with
  | [] => (visited, parents, s)
  | (some sid, child) :: rest =>
    let p := getShuffleMapStage s sid child
    parentVisitDeps p.2 visited (insertIfAbsent parents p.1) rest
  | (none, child) :: rest =>
    let t := parentVisit s visited parents child
    parentVisitDeps t.2.2 t.1 t.2.1 rest
termination_by (sizeOf deps, 4)
decreasing_by
  all_goals simp_wf
  all_goals exact Prod.Lex.left _ _ (by omega)

end

mutual

/-- The inner `visit` of `DAGScheduler.getMissingParentStages`: prune at a
cached, fully-located dataset; at a shuffle dependency resolve the map stage
and record it when it is not available; recurse through narrow
dependencies.  (The stage object looked up through the arena always exists
for ids produced by `getShuffleMapStage`; a dangling id is conservatively
counted as missing.) -/
def missingVisit {V : Type} (s : SchedState V) (visited : List Nat)
    (missing : List Nat) (r : RDD V) : List Nat × List Nat × SchedState V :=
  if r.id ∈ visited then (visited, missing, s)
  else
    if r.shouldCache && (getCacheLocs s r).all (fun l => !l.isEmpty) then
      (r.id :: visited, missing, s)
    else missingVisitDeps s (r.id :: visited) missing r.deps
termination_by (sizeOf r, 0)
decreasing_by exact Prod.Lex.left _ _ (sizeOf_deps_lt r)

/-- The `for dep in r.dependencies` loop of `getMissingParentStages.visit`. -/
def missingVisitDeps {V : Type} (s : SchedState V) (visited : List Nat)
    (missing : List Nat) (deps : List (Option Nat × RDD V)) :
    List Nat × List Nat × SchedState V :=
  match deps with
  | [] => (visited, missing, s)
  | (some sid, child) :: rest =>
    let p := getShuffleMapStage s sid child
    let avail := match alookup p.2.idToStage p.1 with
      | some st => st.isAvailable
      | none => false
    missingVisitDeps p.2 visited (if avail then missing else insertIfAbsent missing p.1) rest
  | (none, child) :: rest =>
    let t := missingVisit s visited missing child
    missingVisitDeps t.2.2 t.1 t.2.1 rest
termination_by (sizeOf deps, 1)
decreasing_by
  all_goals simp_wf
  all_goals exact Prod.Lex.left _ _ (by omega)

end

/-- `DAGScheduler.getMissingParentStages`. -/
def getMissingParentStages {V : Type} (s : SchedState V) (stage : Stage V) :
    List Nat × SchedState V :=
  let t := missingVisit s [] [] stage.rdd
  (t.2.1, t.2.2)

/-! ## C5: memoization of shuffle-map stages -/

/-- After any `getShuffleMapStage` call, `shuffleToMapStage` maps the
dependency's shuffle id to the returned stage. -/
theorem gsms_lookup_after {V : Type} (s : SchedState V) (sid : Nat) (r : RDD V) :
    alookup (getShuffleMapStage s sid r).2.shuffleToMapStage sid
      = some (getShuffleMapStage s sid r).1 := by
  rw [getShuffleMapStage]
  cases h : alookup s.shuffleToMapStage sid with
  | some st => simp [h]
  | none => simp [h, alookup_aset_self]

/-- A `getShuffleMapStage` call on a shuffle id that already has an entry
returns that entry and leaves the state untouched. -/
theorem gsms_hit {V : Type} (s : SchedState V) (sid : Nat) (r : RDD V) (st : Nat)
    (h : alookup s.shuffleToMapStage sid = some st) :
    getShuffleMapStage s sid r = (st, s) := by
  rw [getShuffleMapStage, h]

/-- Entries of `shuffleToMapStage` are never overwritten by a
`getShuffleMapStage` call (nor by the stage creation it may trigger): once a
shuffle id is bound to a stage the binding survives. -/
theorem gsms_preserves_entries {V : Type} (s : SchedState V) (sid : Nat) (r : RDD V) :
    ∀ x st, alookup s.shuffleToMapStage x = some st →
      alookup (getShuffleMapStage s sid r).2.shuffleToMapStage x = some st := by
  refine getShuffleMapStage.induct
    (fun s sid r => ∀ x st, alookup s.shuffleToMapStage x = some st →
      alookup (getShuffleMapStage s sid r).2.shuffleToMapStage x = some st)
    (fun s r sd => ∀ x st, alookup s.shuffleToMapStage x = some st →
      alookup (newStage s r sd).2.shuffleToMapStage x = some st)
    (fun s r => ∀ x st, alookup s.shuffleToMapStage x = some st →
      alookup (getParentStages s r).2.shuffleToMapStage x = some st)
    (fun s visited parents r => ∀ x st, alookup s.shuffleToMapStage x = some st →
      alookup (parentVisit s visited parents r).2.2.shuffleToMapStage x = some st)
    (fun s visited parents deps => ∀ x st, alookup s.shuffleToMapStage x = some st →
      alookup (parentVisitDeps s visited parents deps).2.2.shuffleToMapStage x = some st)
    ?_ ?_ ?_ ?_ ?_ ?_ ?_ ?_ ?_ s sid r
  · intro s sid r st h x st' hx
    rw [gsms_hit s sid r st h]
    exact hx
  · intro s sid r hmiss ih x st hx
    rw [getShuffleMapStage, hmiss]
    have hne : sid ≠ x := by
      intro he; rw [he, hx] at hmiss; exact Option.noConfusion hmiss
    simpa [alookup_aset_ne _ _ _ _ hne] using ih x st hx
  · intro s r sd ih x st hx
    rw [newStage]
    exact ih x st hx
  · intro s r ih x st hx
    rw [getParentStages]
    exact ih x st hx
  · intro s visited parents r hmem x st hx
    rw [parentVisit, if_pos hmem]
    exact hx
  · intro s visited parents r hmem ih x st hx
    rw [parentVisit, if_neg hmem]
    exact ih x st hx
  · intro s visited parents x st hx
    rw [parentVisitDeps]
    exact hx
  · intro s visited parents sid child rest p ih1 ih2 x st hx
    rw [parentVisitDeps]
    exact ih2 x st (ih1 x st hx)
  · intro s visited parents child rest t ih1 ih2 x st hx
    rw [parentVisitDeps]
    exact ih2 x st (ih1 x st hx)

/-- A sequence of further `getShuffleMapStage` calls (each given by a
shuffle id and the dependency's dataset), state-threaded left to right. -/
def runShuffleCalls {V : Type} (s : SchedState V) (calls : List (Nat × RDD V)) :
    SchedState V :=
  match calls with
  | [] => s
  | c :: rest => runShuffleCalls (getShuffleMapStage s c.1 c.2).2 rest

theorem runShuffleCalls_preserves_entries {V : Type} (calls : List (Nat × RDD V))
    (s : SchedState V) :
    ∀ x st, alookup s.shuffleToMapStage x = some st →
      alookup (runShuffleCalls s calls).shuffleToMapStage x = some st := by
  induction calls generalizing s with
  | nil => intro x st hx; exact hx
  | cons c rest ih =>
    intro x st hx
    rw [runShuffleCalls]
    exact ih _ x st (gsms_preserves_entries s c.1 c.2 x st hx)

/-- C5: `shuffleToMapStage[x]` is created at most once.  After a first
`getShuffleMapStage` call for shuffle id `sid` and an arbitrary sequence of
further `getShuffleMapStage` calls, any later call bearing the same shuffle
id returns the identical (memoized) stage, and does not modify the
scheduler state. -/
theorem getShuffleMapStage_memoized {V : Type} (s : SchedState V) (sid : Nat)
    (r r' : RDD V) (calls : List (Nat × RDD V)) :
    getShuffleMapStage (runShuffleCalls (getShuffleMapStage s sid r).2 calls) sid r'
      = ((getShuffleMapStage s sid r).1,
         runShuffleCalls (getShuffleMapStage s sid r).2 calls) := by
  apply gsms_hit
  exact runShuffleCalls_preserves_entries calls _ sid _ (gsms_lookup_after s sid r)

/-! ## Tasks and completion events -/

/-- The two task variants submitted by `submitMissingTasks`.  A
`ResultTask(stageId, rdd, func, part, locs, i)` is `.result i part`; a
`ShuffleMapTask(stageId, rdd, dep, p, locs)` is `.shuffleMap p`.  The
carried `rdd`/`func`/`dep` are determined by the stage and are not
duplicated here. -/
inductive TaskKind where
  | result (outputId : Nat) (partition : Nat)
  | shuffleMap (partition : Nat)

/-- Modelled from the spec: every task carries a scheduler-unique `id`
(assigned in `dpark/task.py`, outside the scheduler source, from a
process-wide counter). -/
structure Task where
  id : Nat
  stageId : Nat
  kind : TaskKind
  locs : List String

/-- `TaskEndReason` with its three concrete classes. -/
inductive TaskEndReason where
  | success
  | fetchFailed (serverUri : String) (shuffleId mapId reduceId : Nat)
  | otherFailure (message : String)

/-- `evt.result`: a result value for a `ResultTask`, the materialising host
for a `ShuffleMapTask`. -/
inductive TaskResult (R : Type) where
  | value (v : R)
  | host (h : String)

/-- The value stored by the result arm (`evt.result`; a well-typed run
always carries `.value`). -/
def TaskResult.valueD {R : Type} [Inhabited R] : TaskResult R → R
  | .value v => v
  | .host _ => default

/-- The host string used by the shuffle arm (`evt.result`; a well-typed
run always carries `.host`). -/
def TaskResult.hostD {R : Type} : TaskResult R → String
  | .host h => h
  | .value _ => ""

/-- `CompletionEvent(task, reason, result, accumUpdates)`; accumulator
updates go to the external `Accumulator` registry and are not tracked. -/
structure CompletionEvent (R : Type) where
  task : Task
  reason : TaskEndReason
  result : TaskResult R

/-! ## `runJob` local state -/

/-- The result-streaming variables of `runJob`: `results`, `finished`,
`lastFinished`, `numFinished`. -/
structure RunVars (R : Type) where
  results : List (Option R)
  finished : List Bool
  lastFinished : Nat
  numFinished : Nat

/-- The `while lastFinished < numOutputParts and finished[lastFinished]`
drain loop of the `keep_order` branch; yields the buffered result and
resets the slot to `None`.  `fuel` is passed as
`n - lastFinished`, which bounds the iteration count exactly (each pass
increments `lastFinished`, and with `fuel = 0` the guard
`lastFinished < n` is false as well), so the fuel never cuts the loop
short. -/
def drainLoop {R : Type} [Inhabited R] (n : Nat) :
    Nat → RunVars R → List R × RunVars R
  | 0, rv => ([], rv)
  | fuel+1, rv =>
    if rv.lastFinished < n && rv.finished.getD rv.lastFinished false then
      let y := (rv.results.getD rv.lastFinished none).getD default
      let rv1 := { rv with
                   results := rv.results.set rv.lastFinished none
                   lastFinished := rv.lastFinished + 1 }
      let p := drainLoop n fuel rv1
      (y :: p.1, p.2)
    else ([], rv)

/-- The `Success`/`ResultTask` arm of the event loop:
`finished[outputId] = True; numFinished += 1`, then either buffer-and-drain
(`keep_order`) or yield immediately. -/
def resultStep {R : Type} [Inhabited R] (n : Nat) (keepOrder : Bool)
    (rv : RunVars R) (outputId : Nat) (v : R) : List R × RunVars R :=
  let rv1 := { rv with
               finished := rv.finished.set outputId true
               numFinished := rv.numFinished + 1 }
  if keepOrder then
    let rv2 := { rv1 with results := rv1.results.set outputId (some v) }
    drainLoop n (n - rv2.lastFinished) rv2
  else ([v], rv1)

/-- The per-run state of the `runJob` scheduling loop: the scheduler maps,
the result-streaming variables, the `waiting`/`running`/`failed` stage sets
(by id), `pendingTasks`, the task-id counter, and two traces of calls to
collaborators: `submitted` (batches handed to `submitTasks`, i.e. to the
cluster layer) and `registeredOutputs` (`mapOutputTracker.registerMapOutputs`). -/
structure LoopState (V R : Type) where
  sched : SchedState V
  run : RunVars R
  waiting : List Nat
  running : List Nat
  failed : List Nat
  pendingTasks : List (Nat × List Nat)
  nextTaskId : Nat
  submitted : List (List Task)
  registeredOutputs : List (Nat × List String)

/-- External collaborators of the loop: the cache tracker's
`getLocationsSnapshot`, modelled as a constant snapshot. -/
structure Env (V : Type) where
  snapshot : List (Nat × List (List String))

/-- The closure context of `runJob`'s inner functions. -/
structure LoopCfg (V : Type) where
  env : Env V
  finalStageId : Nat
  finalRdd : RDD V
  outputParts : List Nat
  keepOrder : Bool

/-- The final-stage half of `submitMissingTasks`: one `ResultTask` per
output index `i` with `finished[i]` falsy, with the preferred-locations
short-circuit (`have_prefer`).  Returns the tasks and the advanced task-id
counter. -/
def finalTaskLoop {V : Type} (finalRdd : RDD V) (finalStageId : Nat)
    (outputParts : List Nat) (finished : List Bool) :
    List Nat → Bool → Nat → List Task × Nat
  | [], _, nid => ([], nid)
  | i :: is, havePrefer, nid =>
    if finished.getD i false then finalTaskLoop finalRdd finalStageId outputParts finished is havePrefer nid
    else
      let part := outputParts.getD i 0
      let locs := if havePrefer then finalRdd.prefAt part else []
      let havePrefer1 := havePrefer && !locs.isEmpty
      let p := finalTaskLoop finalRdd finalStageId outputParts finished is havePrefer1 (nid + 1)
      (⟨nid, finalStageId, .result i part, locs⟩ :: p.1, p.2)

/-- The shuffle-map half of `submitMissingTasks`: one `ShuffleMapTask` per
partition `p` with empty `outputLocs[p]`, with the same short-circuit. -/
def shuffleTaskLoop {V : Type} (rdd : RDD V) (stageId : Nat)
    (outputLocs : List (List String)) :
    List Nat → Bool → Nat → List Task × Nat
  | [], _, nid => ([], nid)
  | p :: ps, havePrefer, nid =>
    if (outputLocs.getD p []).isEmpty then
      let locs := if havePrefer then rdd.prefAt p else []
      let havePrefer1 := havePrefer && !locs.isEmpty
      let q := shuffleTaskLoop rdd stageId outputLocs ps havePrefer1 (nid + 1)
      (⟨nid, stageId, .shuffleMap p, locs⟩ :: q.1, q.2)
    else shuffleTaskLoop rdd stageId outputLocs ps havePrefer nid

/-- `submitMissingTasks(stage)`: build the batch, record the ids in the
stage's pending set (`setdefault` + union), and hand the batch to
`submitTasks` (the `submitted` trace). -/
def submitMissingTasks {V R : Type} (cfg : LoopCfg V) (st : LoopState V R)
    (stageId : Nat) : LoopState V R :=
  match alookup st.sched.idToStage stageId with
  | none => st
  | some stage =>
    let pending0 := (alookup st.pendingTasks stageId).getD []
    let p :=
      if stageId = cfg.finalStageId then
        finalTaskLoop cfg.finalRdd cfg.finalStageId cfg.outputParts st.run.finished
          (List.range cfg.outputParts.length) true st.nextTaskId
      else
        shuffleTaskLoop stage.rdd stageId stage.outputLocs
          (List.range stage.numPartitions) true st.nextTaskId
    { st with
      nextTaskId := p.2
      pendingTasks := aset st.pendingTasks stageId
        ((p.1.map Task.id).foldl insertIfAbsent pending0)
      submitted := st.submitted ++ [p.1] }

mutual

/-- `submitStage(stage)`: recursive stage submission.  The recursion depth
is bounded by the stage DAG's height; `fuel` makes the recursion
well-founded (exhausted fuel leaves the state unchanged, which no theorem
relies on). -/
def submitStage {V R : Type} (cfg : LoopCfg V) :
    Nat → LoopState V R → Nat → LoopState V R
  | 0, st, _ => st
  | fuel+1, st, stageId =>
    if stageId ∈ st.waiting ∨ stageId ∈ st.running then st
    else
      match alookup st.sched.idToStage stageId with
      | none => st
      | some stage =>
        let q := getMissingParentStages st.sched stage
        let st1 := { st with sched := q.2 }
        if q.1.isEmpty then
          let st2 := submitMissingTasks cfg st1 stageId
          { st2 with running := insertIfAbsent st2.running stageId }
        else
          let st2 := submitStageList cfg fuel st1 q.1
          { st2 with waiting := insertIfAbsent st2.waiting stageId }
termination_by fuel st stageId => (fuel, 0)
decreasing_by exact Prod.Lex.left _ _ (by omega)

/-- `for parent in missing: submitStage(parent)`. -/
def submitStageList {V R : Type} (cfg : LoopCfg V) :
    Nat → LoopState V R → List Nat → LoopState V R
  | _, st, [] => st
  | fuel, st, p :: ps => submitStageList cfg fuel (submitStage cfg fuel st p) ps
termination_by fuel st ps => (fuel, ps.length + 1)
decreasing_by
  · exact Prod.Lex.right _ (by omega)
  · exact Prod.Lex.right _ (by simp only [List.length_cons]; omega)

end

/-- The `newlyRunnable` scan of the shuffle-success arm: stages in
`waiting` (in order) whose `getMissingParentStages` comes back empty; the
scan itself threads the scheduler state because `getMissingParentStages`
may create stages. -/
def scanWaiting {V : Type} (s : SchedState V) :
    List Nat → List Nat × SchedState V
  | [] => ([], s)
  | w :: ws =>
    match alookup s.idToStage w with
    | none =>
      let t := scanWaiting s ws
      t
    | some stage =>
      let q := getMissingParentStages s stage
      let t := scanWaiting q.2 ws
      if q.1.isEmpty then (w :: t.1, t.2) else t

/-- How a `handleEvent` step ends: normal continuation, an exception
re-raised out of the generator (`raise evt.reason`), or a `KeyError` /
`IndexError` escaping from the loop body (absent stage id, absent pending
task id, out-of-range output index, `running.remove` miss). -/
inductive StepNote where
  | ok
  | raised (reason : TaskEndReason)
  | keyError

/-- The `Success`/`ShuffleMapTask` arm: record the host in
`stage.outputLocs[partition]`; when the stage's pending set has emptied,
drop it from `running`, register the map outputs (first host per
partition), refresh the cache-location snapshot, and move every
newly-runnable waiting stage to `running`, submitting its tasks. -/
def shuffleArm {V R : Type} (cfg : LoopCfg V) (st : LoopState V R)
    (stageId : Nat) (stage : Stage V) (partition : Nat) (host : String)
    (pendAfter : List Nat) : LoopState V R × List R × StepNote :=
  let stage1 := stage.addOutputLoc partition host
  let st1 := { st with sched :=
    { st.sched with idToStage := aset st.sched.idToStage stageId stage1 } }
  if pendAfter.isEmpty then
    if stageId ∈ st1.running then
      let st2 := { st1 with running := st1.running.erase stageId }
      let st3 :=
        match stage1.shuffleDep with
        | some sid =>
          { st2 with registeredOutputs := st2.registeredOutputs ++
              [(sid, stage1.outputLocs.map (fun (l : List String) => l.headD ""))] }
        | none => st2
      let st4 := { st3 with sched := { st3.sched with cacheLocs := cfg.env.snapshot } }
      let t := scanWaiting st4.sched st4.waiting
      let newlyRunnable := t.1
      let st5 := { st4 with
        sched := t.2
        waiting := st4.waiting.filter (fun w => decide (w ∉ newlyRunnable))
        running := newlyRunnable.foldl insertIfAbsent st4.running }
      let st6 := newlyRunnable.foldl (fun acc w => submitMissingTasks cfg acc w) st5
      (st6, [], .ok)
    else (st1, [], .keyError)
  else (st1, [], .ok)

/-- The `Success` arm of the event dispatch, by task variant
(`schedule.py` lines 295-325). -/
def dispatchSuccess {V R : Type} [Inhabited R] (cfg : LoopCfg V)
    (st1 : LoopState V R) (stage : Stage V) (stageId : Nat)
    (pendAfter : List Nat) (result : TaskResult R) :
    TaskKind → LoopState V R × List R × StepNote
  | .result outputId _ =>
    if outputId < st1.run.finished.length then
      let p := resultStep cfg.outputParts.length cfg.keepOrder st1.run outputId
        result.valueD
      ({ st1 with run := p.2 }, p.1, .ok)
    else (st1, [], .keyError)
  | .shuffleMap partition =>
    shuffleArm cfg st1 stageId stage partition result.hostD pendAfter

/-- The dispatch on `evt.reason`, after the task has been removed from its
stage's pending set (`schedule.py` lines 295-332).  `st1` is the state with
the pending set already updated. -/
def dispatchEvent {V R : Type} [Inhabited R] (cfg : LoopCfg V)
    (st1 : LoopState V R) (stage : Stage V) (stageId : Nat)
    (pendAfter : List Nat) (result : TaskResult R) (kind : TaskKind) :
    TaskEndReason → LoopState V R × List R × StepNote
  | .success => dispatchSuccess cfg st1 stage stageId pendAfter result kind
  | .fetchFailed _ _ _ _ => (st1, [], .ok)
  | .otherFailure m => (st1, [], .raised (.otherFailure m))

/-- The pending-set step of the event loop: discard the event silently when
its stage has no entry in `pendingTasks` (another job's leftover), remove
the task id from the pending set (`KeyError` when absent), and dispatch. -/
def handlePending {V R : Type} [Inhabited R] (cfg : LoopCfg V)
    (st : LoopState V R) (evt : CompletionEvent R) (stage : Stage V) :
    Option (List Nat) → LoopState V R × List R × StepNote
  | none => (st, [], .ok)
  | some pend =>
    if evt.task.id ∈ pend then
      dispatchEvent cfg
        { st with pendingTasks := aset st.pendingTasks evt.task.stageId
                    (pend.erase evt.task.id) }
        stage evt.task.stageId (pend.erase evt.task.id) evt.result
        evt.task.kind evt.reason
    else (st, [], .keyError)

/-- The stage lookup of the event loop (`stage = self.idToStage[task.stageId]`,
a `KeyError` when absent). -/
def handleStage {V R : Type} [Inhabited R] (cfg : LoopCfg V)
    (st : LoopState V R) (evt : CompletionEvent R) :
    Option (Stage V) → LoopState V R × List R × StepNote
  | none => (st, [], .keyError)
  | some stage =>
    handlePending cfg st evt stage (alookup st.pendingTasks evt.task.stageId)

/-- One iteration of the `runJob` event loop for a dequeued completion
event (`schedule.py` lines 289-332): look the stage up, silently discard
events of unknown (other-job) stages, remove the task from the pending
set, then dispatch on the reason and the task variant. -/
def handleEvent {V R : Type} [Inhabited R] (cfg : LoopCfg V)
    (st : LoopState V R) (evt : CompletionEvent R) :
    LoopState V R × List R × StepNote :=
  handleStage cfg st evt (alookup st.sched.idToStage evt.task.stageId)

/-- How the `runJob` loop ended. -/
inductive LoopOutcome (V R : Type) where
  | done (st : LoopState V R)
  | starved (st : LoopState V R)
  | raisedOut (reason : TaskEndReason) (st : LoopState V R)
  | errorOut (st : LoopState V R)

mutual

/-- The `while numFinished != numOutputParts` event loop, consuming the
given queue of completion events.  (The empty-queue arm of the source only
re-polls: `self.check()` is a no-op hook, `_shutdown` is driven externally,
and the resubmission arm is dead because nothing is ever added to `failed`
— see C2.)  `starved` marks a run whose event queue was exhausted before
completion. -/
def runLoop {V R : Type} [Inhabited R] (cfg : LoopCfg V) :
    LoopState V R → List (CompletionEvent R) → List R × LoopOutcome V R
  | st, events =>
    if st.run.numFinished = cfg.outputParts.length then ([], .done st)
    else
      match events with
      | [] => ([], .starved st)
      | e :: rest => runLoopCont cfg rest (handleEvent cfg st e)
termination_by st events => (events.length, 0)
decreasing_by exact Prod.Lex.left _ _ (by simp)

/-- Continue the loop after one `handleEvent` step: on `ok`, prepend the
step's yields and keep consuming; a raised reason or a key error ends the
generator. -/
def runLoopCont {V R : Type} [Inhabited R] (cfg : LoopCfg V)
    (rest : List (CompletionEvent R)) :
    LoopState V R × List R × StepNote → List R × LoopOutcome V R
  | (st1, ys1, .ok) =>
    (ys1 ++ (runLoop cfg st1 rest).1, (runLoop cfg st1 rest).2)
  | (st1, ys1, .raised r) => (ys1, .raisedOut r st1)
  | (st1, ys1, .keyError) => (ys1, .errorOut st1)
termination_by t => (rest.length, 1)
decreasing_by
  all_goals exact Prod.Lex.right _ (by omega)

end

/-! ## `runJob` -/

/-- Modelled from the spec: a `ResultTask(stageId, rdd, fn, part, locs, i)`
runs `fn(rdd.iterator(split))` on its partition (the task body lives in
`dpark/task.py`, outside the scheduler source). -/
def resultTaskRun {V R : Type} (rdd : RDD V) (func : List V → R)
    (partition : Nat) : R :=
  func (rdd.iterAt partition)

/-- `newStage` registers the stage it returns under its fresh id. -/
theorem newStage_lookup {V : Type} (s : SchedState V) (r : RDD V) (sd : Option Nat) :
    alookup (newStage s r sd).2.idToStage (newStage s r sd).1
      = some (Stage.make (newStage s r sd).1 r sd (getParentStages s r).1) := by
  rw [newStage]
  simp [alookup_aset_self]

/-- The entry sequence of `runJob` before the local/cluster decision:
`finalStage = newStage(finalRdd, None)`, `self.updateCacheLocs()`, and the
`getMissingParentStages(finalStage)` evaluated eagerly as an argument of
the `logger.debug` call on line 219 (Python evaluates logging arguments
unconditionally).  Returns the final stage id, the final stage, and the
resulting scheduler state.  (The dead `none` arm returns a placeholder;
`newStage_lookup` shows the lookup always succeeds.) -/
def runJobSetup {V : Type} (env : Env V) (s0 : SchedState V) (finalRdd : RDD V) :
    Nat × Stage V × SchedState V :=
  let p := newStage s0 finalRdd none
  let s2 : SchedState V := { p.2 with cacheLocs := env.snapshot }
  let fs := match alookup s2.idToStage p.1 with
    | some st => st
    | none => Stage.make p.1 finalRdd none []
  let q := getMissingParentStages s2 fs
  (p.1, fs, q.2)

/-- How a `runJob` call ended: through the local fast path, or through the
scheduling loop with the loop's outcome. -/
inductive JobOutcome (V R : Type) where
  | localDone (sched : SchedState V)
  | cluster (out : LoopOutcome V R)

def LoopOutcome.state {V R : Type} : LoopOutcome V R → LoopState V R
  | .done st => st
  | .starved st => st
  | .raisedOut _ st => st
  | .errorOut st => st

def JobOutcome.isLocal {V R : Type} : JobOutcome V R → Bool
  | .localDone _ => true
  | .cluster _ => false

/-- The evaluation of the second `getMissingParentStages(finalStage)` in
the guard of the local fast path (line 221).  Python short-circuiting: it
runs only when `allowLocal` holds and the final stage has parents;
otherwise the state is left as `runJobSetup` produced it. -/
def runJobGuard {V : Type} (env : Env V) (s0 : SchedState V) (finalRdd : RDD V)
    (allowLocal : Bool) : List Nat × SchedState V :=
  if allowLocal && !(runJobSetup env s0 finalRdd).2.1.parents.isEmpty then
    getMissingParentStages (runJobSetup env s0 finalRdd).2.2
      (runJobSetup env s0 finalRdd).2.1
  else ([], (runJobSetup env s0 finalRdd).2.2)

/-- The local-fast-path guard of `runJob` (line 221):
`allowLocal and (not finalStage.parents or not getMissingParentStages(finalStage))
and numOutputParts == 1`. -/
def runJobCond {V : Type} (env : Env V) (s0 : SchedState V) (finalRdd : RDD V)
    (allowLocal : Bool) (partitions : List Nat) : Bool :=
  allowLocal && ((runJobSetup env s0 finalRdd).2.1.parents.isEmpty
    || (runJobGuard env s0 finalRdd allowLocal).1.isEmpty)
    && (partitions.length == 1)

/-- The per-run state at the top of the scheduling loop: fresh
`results`/`finished` arrays and empty stage sets. -/
def initialLoopState {V R : Type} (s : SchedState V) (n : Nat) : LoopState V R :=
  { sched := s
    run := ⟨List.replicate n none, List.replicate n false, 0, 0⟩
    waiting := [], running := [], failed := [], pendingTasks := []
    nextTaskId := 0, submitted := [], registeredOutputs := [] }

def runJobCfg {V : Type} (env : Env V) (s0 : SchedState V) (finalRdd : RDD V)
    (partitions : List Nat) (keepOrder : Bool) : LoopCfg V :=
  ⟨env, (runJobSetup env s0 finalRdd).1, finalRdd, partitions, keepOrder⟩

/-- The cluster path of `runJob`: `submitStage(finalStage)` followed by the
event loop. -/
def runJobLoop {V R : Type} [Inhabited R] (env : Env V) (s0 : SchedState V)
    (finalRdd : RDD V) (partitions : List Nat) (allowLocal keepOrder : Bool)
    (fuel : Nat) (events : List (CompletionEvent R)) :
    List R × LoopOutcome V R :=
  runLoop (runJobCfg env s0 finalRdd partitions keepOrder)
    (submitStage (runJobCfg env s0 finalRdd partitions keepOrder) fuel
      (initialLoopState (runJobGuard env s0 finalRdd allowLocal).2
        partitions.length)
      (runJobSetup env s0 finalRdd).1)
    events

/-- `DAGScheduler.runJob(finalRdd, func, partitions, allowLocal)`, as a
function of the completion-event queue contents.  Returns the yielded
results in order, the trace of `submitTasks` batches handed to the cluster
layer, and the outcome. -/
def runJob {V R : Type} [Inhabited R] (env : Env V) (s0 : SchedState V)
    (finalRdd : RDD V) (func : List V → R) (partitions : List Nat)
    (allowLocal keepOrder : Bool) (fuel : Nat)
    (events : List (CompletionEvent R)) :
    List R × List (List Task) × JobOutcome V R :=
  if runJobCond env s0 finalRdd allowLocal partitions then
    ([func (finalRdd.iterAt (partitions.getD 0 0))], [],
      .localDone (runJobGuard env s0 finalRdd allowLocal).2)
  else
    ((runJobLoop env s0 finalRdd partitions allowLocal keepOrder fuel events).1,
      (LoopOutcome.state
        (runJobLoop env s0 finalRdd partitions allowLocal keepOrder fuel
          events).2).submitted,
      .cluster
        (runJobLoop env s0 finalRdd partitions allowLocal keepOrder fuel
          events).2)

/-- C3: with `allowLocal`, a single requested partition, and a final stage
with no parents or no missing parent stages, `runJob` computes the single
output inline — it yields exactly `func(finalRdd.iterator(splits[p]))`,
hands no task batch to `submitTasks`, and ends through the local path. -/
theorem runJob_local_fast_path {V R : Type} [Inhabited R] (env : Env V)
    (s0 : SchedState V) (finalRdd : RDD V) (func : List V → R)
    (partitions : List Nat) (keepOrder : Bool) (fuel : Nat)
    (events : List (CompletionEvent R))
    (h1 : partitions.length = 1)
    (h2 : (runJobSetup env s0 finalRdd).2.1.parents = [] ∨
          (getMissingParentStages (runJobSetup env s0 finalRdd).2.2
            (runJobSetup env s0 finalRdd).2.1).1 = []) :
    (runJob env s0 finalRdd func partitions true keepOrder fuel events).1
        = [func (finalRdd.iterAt (partitions.getD 0 0))] ∧
    (runJob env s0 finalRdd func partitions true keepOrder fuel events).2.1 = [] ∧
    (runJob env s0 finalRdd func partitions true keepOrder fuel events).2.2.isLocal
        = true := by
  have hcond : runJobCond env s0 finalRdd true partitions = true := by
    rcases h2 with h2 | h2
    · simp [runJobCond, h2, h1]
    · by_cases hp : (runJobSetup env s0 finalRdd).2.1.parents.isEmpty = true
      · simp [runJobCond, hp, h1]
      · simp [runJobCond, runJobGuard, hp, h2, h1]
  refine ⟨?_, ?_, ?_⟩ <;>
    · rw [runJob, if_pos hcond]
      try rfl

/-! ## The ordered-yield invariant

`leadTrue finished` is the length of the leading all-`True` prefix of
`finished`; the loop keeps `lastFinished` equal to it. -/

def leadTrue : List Bool → Nat
  | [] => 0
  | b :: bs => if b then leadTrue bs + 1 else 0

theorem leadTrue_le_length (l : List Bool) : leadTrue l ≤ l.length := by
  induction l with
  | nil => simp [leadTrue]
  | cons b bs ih =>
    by_cases hb : b = true
    · simp only [leadTrue, hb, if_true, List.length_cons]
      omega
    · simp [leadTrue, hb]

theorem getD_true_of_lt_leadTrue (l : List Bool) (i : Nat) (h : i < leadTrue l) :
    l.getD i false = true := by
  induction l generalizing i with
  | nil => simp [leadTrue] at h
  | cons b bs ih =>
    by_cases hb : b = true
    · cases i with
      | zero => simp [hb]
      | succ j =>
        simp only [leadTrue, hb, if_true] at h
        simpa using ih j (by omega)
    · simp [leadTrue, hb] at h

theorem leadTrue_le_of_getD_false (l : List Bool) (i : Nat)
    (h : l.getD i false = false) : leadTrue l ≤ i := by
  by_contra hlt
  rw [getD_true_of_lt_leadTrue l i (by omega)] at h
  exact Bool.noConfusion h

theorem getD_set_self {α : Type _} (l : List α) (i : Nat) (a d : α)
    (h : i < l.length) : (l.set i a).getD i d = a := by
  simp [List.getD_eq_getElem?_getD, List.getElem?_set, h]

theorem getD_set_ne {α : Type _} (l : List α) (i j : Nat) (a d : α)
    (h : i ≠ j) : (l.set i a).getD j d = l.getD j d := by
  simp [List.getD_eq_getElem?_getD, List.getElem?_set, h]

theorem leadTrue_le_leadTrue_set_true (l : List Bool) (i : Nat) :
    leadTrue l ≤ leadTrue (l.set i true) := by
  induction l generalizing i with
  | nil => simp [leadTrue]
  | cons b bs ih =>
    cases i with
    | zero =>
      by_cases hb : b = true
      · simp [leadTrue, hb]
      · simp [leadTrue, hb]
    | succ j =>
      by_cases hb : b = true
      · simp only [List.set, leadTrue, hb, if_true]
        have := ih j
        omega
      · simp [List.set, leadTrue, hb]

theorem count_true_set_true (l : List Bool) (i : Nat)
    (hf : l.getD i false = false) (hi : i < l.length) :
    (l.set i true).count true = l.count true + 1 := by
  induction l generalizing i with
  | nil => simp at hi
  | cons b bs ih =>
    cases i with
    | zero =>
      simp only [List.getD_cons_zero] at hf
      simp [List.set, hf, List.count_cons]
    | succ j =>
      simp only [List.getD_cons_succ] at hf
      simp only [List.length_cons] at hi
      simp only [List.set, List.count_cons]
      rw [ih j hf (by omega)]
      omega

theorem all_true_of_count_eq_length (l : List Bool) (h : l.count true = l.length) :
    ∀ i, i < l.length → l.getD i false = true := by
  intro i hi
  have hall := List.count_eq_length.mp h
  have : l.getD i false ∈ l := by
    rw [List.getD_eq_getElem?_getD, List.getElem?_eq_getElem hi]
    exact List.getElem_mem hi
  exact (hall _ this).symm

theorem leadTrue_eq_length_of_all_true (l : List Bool)
    (h : ∀ i, i < l.length → l.getD i false = true) : leadTrue l = l.length := by
  induction l with
  | nil => simp [leadTrue]
  | cons b bs ih =>
    have hb := h 0 (by simp)
    simp only [List.getD_cons_zero] at hb
    simp only [leadTrue, hb, if_true, List.length_cons]
    rw [ih]
    intro i hi
    have := h (i + 1) (by simpa using Nat.succ_lt_succ hi)
    simpa using this

theorem getD_leadTrue_false_of_lt (l : List Bool) (h : leadTrue l < l.length) :
    l.getD (leadTrue l) false = false := by
  induction l with
  | nil => simp at h
  | cons b bs ih =>
    by_cases hb : b = true
    · simp only [leadTrue, hb, if_true] at h ⊢
      simp only [List.getD_cons_succ]
      exact ih (by simpa using h)
    · have hb2 : b = false := by
        cases b
        · rfl
        · exact absurd rfl hb
      simp [leadTrue, hb2]

/-- The slot relation at a point where the drain loop has stopped:
`lastFinished` equals the finished prefix and every slot below it is
`None`. -/
theorem drain_end_results {R : Type} [Inhabited R] (n : Nat) (rval : Nat → R)
    (rv : RunVars R)
    (heq : leadTrue rv.finished = rv.lastFinished)
    (hlow : ∀ i, i < rv.lastFinished → rv.results.getD i none = none)
    (hval : ∀ i, rv.lastFinished ≤ i → i < n → rv.results.getD i none =
        (if rv.finished.getD i false then some (rval i) else none)) :
    ∀ i, i < n → rv.results.getD i none =
      (if rv.finished.getD i false ∧ leadTrue rv.finished ≤ i
       then some (rval i) else none) := by
  intro i hi
  by_cases hil : i < rv.lastFinished
  · rw [hlow i hil, if_neg]
    exact fun h => absurd h.2 (by omega)
  · rw [hval i (by omega) hi]
    by_cases hf : rv.finished.getD i false = true
    · rw [if_pos hf, if_pos ⟨hf, by omega⟩]
    · rw [if_neg hf, if_neg (fun h => hf h.1)]

/-- Correctness of one pass of the `keep_order` drain loop, for any
sufficient fuel: it yields exactly the buffered results from
`lastFinished` up to the end of the finished prefix, advances
`lastFinished` to that point, and leaves every slot below it reset to
`None`. -/
theorem drainLoop_spec {R : Type} [Inhabited R] (n : Nat) (rval : Nat → R) :
    ∀ (fuel : Nat) (rv : RunVars R),
    rv.finished.length = n → rv.results.length = n →
    rv.lastFinished ≤ leadTrue rv.finished →
    n ≤ rv.lastFinished + fuel →
    (∀ i, i < rv.lastFinished → rv.results.getD i none = none) →
    (∀ i, rv.lastFinished ≤ i → i < n →
      rv.results.getD i none =
        (if rv.finished.getD i false then some (rval i) else none)) →
    (drainLoop n fuel rv).1
        = (List.range' rv.lastFinished (leadTrue rv.finished - rv.lastFinished)).map rval ∧
    (drainLoop n fuel rv).2.finished = rv.finished ∧
    (drainLoop n fuel rv).2.numFinished = rv.numFinished ∧
    (drainLoop n fuel rv).2.lastFinished = leadTrue rv.finished ∧
    (drainLoop n fuel rv).2.results.length = n ∧
    (∀ i, i < n → (drainLoop n fuel rv).2.results.getD i none =
      (if rv.finished.getD i false ∧ leadTrue rv.finished ≤ i
       then some (rval i) else none)) := by
  intro fuel
  induction fuel with
  | zero =>
    intro rv hlen hrlen hle hfuel hlow hval
    have hlt : leadTrue rv.finished ≤ n := hlen ▸ leadTrue_le_length rv.finished
    have heq : leadTrue rv.finished = rv.lastFinished := by omega
    rw [drainLoop]
    exact ⟨by simp [heq], rfl, rfl, heq.symm, hrlen,
      drain_end_results n rval rv heq hlow hval⟩
  | succ fuel ih =>
    intro rv hlen hrlen hle hfuel hlow hval
    have hlt : leadTrue rv.finished ≤ n := hlen ▸ leadTrue_le_length rv.finished
    rw [drainLoop]
    by_cases hg : (decide (rv.lastFinished < n) && rv.finished.getD rv.lastFinished false) = true
    · rw [if_pos hg]
      rcases Bool.and_eq_true_iff.mp hg with ⟨hg1, hg2⟩
      have hg1 : rv.lastFinished < n := of_decide_eq_true hg1
      have hLlt : rv.lastFinished < leadTrue rv.finished := by
        rcases Nat.lt_or_ge rv.lastFinished (leadTrue rv.finished) with h | h
        · exact h
        · exfalso
          have heq2 : leadTrue rv.finished = rv.lastFinished := by omega
          have hlen2 : leadTrue rv.finished < rv.finished.length := by omega
          have hff := getD_leadTrue_false_of_lt rv.finished hlen2
          rw [heq2] at hff
          rw [hff] at hg2
          exact Bool.noConfusion hg2
      have h1 : rv.finished.length = n := hlen
      have h2 : (rv.results.set rv.lastFinished none).length = n := by
        simp [hrlen]
      have h3 : rv.lastFinished + 1 ≤ leadTrue rv.finished := hLlt
      have h4 : n ≤ (rv.lastFinished + 1) + fuel := by omega
      have h5 : ∀ i, i < rv.lastFinished + 1 →
          (rv.results.set rv.lastFinished none).getD i none = none := by
        intro i hi
        by_cases hieq : rv.lastFinished = i
        · subst hieq
          exact getD_set_self _ _ _ _ (by omega)
        · rw [getD_set_ne _ _ _ _ _ hieq]
          exact hlow i (by omega)
      have h6 : ∀ i, rv.lastFinished + 1 ≤ i → i < n →
          (rv.results.set rv.lastFinished none).getD i none =
            (if rv.finished.getD i false then some (rval i) else none) := by
        intro i hge hi
        rw [getD_set_ne _ _ _ _ _ (by omega)]
        exact hval i (by omega) hi
      obtain ⟨c1, c2, c3, c4, c5, c6⟩ := ih { rv with
          results := rv.results.set rv.lastFinished none
          lastFinished := rv.lastFinished + 1 } h1 h2 h3 h4 h5 h6
      have hy : (rv.results.getD rv.lastFinished none).getD default
          = rval rv.lastFinished := by
        rw [hval rv.lastFinished (le_refl _) hg1, if_pos hg2]
        rfl
      refine ⟨?_, c2, c3, c4, c5, c6⟩
      simp only [hy, c1]
      have hrange : List.range' rv.lastFinished (leadTrue rv.finished - rv.lastFinished)
          = rv.lastFinished :: List.range' (rv.lastFinished + 1)
              (leadTrue rv.finished - (rv.lastFinished + 1)) := by
        have hm : leadTrue rv.finished - rv.lastFinished
            = (leadTrue rv.finished - (rv.lastFinished + 1)) + 1 := by omega
        rw [hm, List.range'_succ]
      rw [hrange]
      simp
    · rw [if_neg hg]
      have heq : leadTrue rv.finished = rv.lastFinished := by
        rcases Nat.lt_or_ge rv.lastFinished n with hlt2 | hge2
        · have hf : rv.finished.getD rv.lastFinished false = false := by
            cases hb : rv.finished.getD rv.lastFinished false
            · rfl
            · exfalso
              apply hg
              rw [hb]
              simp [hlt2]
          have := leadTrue_le_of_getD_false rv.finished rv.lastFinished hf
          omega
        · omega
      exact ⟨by simp [heq], rfl, rfl, heq.symm, hrlen,
        drain_end_results n rval rv heq hlow hval⟩

/-- The loop invariant on the result-streaming variables: lengths, the
`numFinished`/`finished` agreement, and — under `keep_order` — that
`lastFinished` tracks the finished prefix and the buffer holds exactly the
finished-but-not-yet-yielded results. -/
def RunInv {R : Type} (n : Nat) (keepOrder : Bool) (rval : Nat → R)
    (rv : RunVars R) : Prop :=
  rv.finished.length = n ∧ rv.results.length = n ∧
  rv.numFinished = rv.finished.count true ∧
  (keepOrder = true →
    rv.lastFinished = leadTrue rv.finished ∧
    ∀ i, i < n → rv.results.getD i none =
      (if rv.finished.getD i false ∧ leadTrue rv.finished ≤ i
       then some (rval i) else none))

/-- Effect of one `Success`/`ResultTask` step on the result variables. -/
theorem resultStep_spec {R : Type} [Inhabited R] (n : Nat) (keepOrder : Bool)
    (rval : Nat → R) (rv : RunVars R) (i : Nat)
    (hInv : RunInv n keepOrder rval rv) (hi : i < n)
    (hfi : rv.finished.getD i false = false) :
    RunInv n keepOrder rval (resultStep n keepOrder rv i (rval i)).2 ∧
    (resultStep n keepOrder rv i (rval i)).2.finished = rv.finished.set i true ∧
    (resultStep n keepOrder rv i (rval i)).2.numFinished = rv.numFinished + 1 ∧
    (keepOrder = true →
      (resultStep n keepOrder rv i (rval i)).1
        = (List.range' rv.lastFinished
            (leadTrue (rv.finished.set i true) - rv.lastFinished)).map rval ∧
      (resultStep n keepOrder rv i (rval i)).2.lastFinished
        = leadTrue (rv.finished.set i true)) ∧
    (keepOrder = false →
      (resultStep n keepOrder rv i (rval i)).1 = [rval i]) := by
  obtain ⟨hlen, hrlen, hcnt, hko⟩ := hInv
  have hcnt2 : (rv.finished.set i true).count true = rv.finished.count true + 1 :=
    count_true_set_true rv.finished i hfi (by omega)
  cases keepOrder with
  | false =>
    have hstepf : resultStep n false rv i (rval i)
        = ([rval i], { rv with
            finished := rv.finished.set i true
            numFinished := rv.numFinished + 1 }) := rfl
    rw [hstepf]
    refine ⟨⟨by simpa using hlen, by simpa using hrlen, ?_,
        by intro h; exact Bool.noConfusion h⟩,
      rfl, rfl, by intro h; exact Bool.noConfusion h, by intro _; rfl⟩
    show rv.numFinished + 1 = (rv.finished.set i true).count true
    omega
  | true =>
    obtain ⟨hlast, hres⟩ := hko rfl
    have hiLT : leadTrue rv.finished ≤ i :=
      leadTrue_le_of_getD_false rv.finished i hfi
    have hmono : leadTrue rv.finished ≤ leadTrue (rv.finished.set i true) :=
      leadTrue_le_leadTrue_set_true rv.finished i
    have hltn : leadTrue rv.finished ≤ n := hlen ▸ leadTrue_le_length rv.finished
    have hd := drainLoop_spec n rval
      (n - leadTrue rv.finished)
      { rv with
        finished := rv.finished.set i true
        numFinished := rv.numFinished + 1
        results := rv.results.set i (some (rval i)) }
      (by simpa using hlen) (by simpa using hrlen)
      (by show rv.lastFinished ≤ leadTrue (rv.finished.set i true); omega)
      (by show n ≤ rv.lastFinished + (n - leadTrue rv.finished); omega)
      (by
        intro j hj
        have hj2 : j < rv.lastFinished := hj
        show (rv.results.set i (some (rval i))).getD j none = none
        rw [getD_set_ne _ _ _ _ _ (by omega)]
        rw [hres j (by omega)]
        rw [if_neg]
        exact fun h => absurd h.2 (by omega))
      (by
        intro j hge hj
        have hge2 : rv.lastFinished ≤ j := hge
        show (rv.results.set i (some (rval i))).getD j none =
          (if (rv.finished.set i true).getD j false then some (rval j) else none)
        by_cases hji : i = j
        · subst hji
          rw [getD_set_self _ _ _ _ (by omega), getD_set_self _ _ _ _ (by omega)]
          simp
        · rw [getD_set_ne _ _ _ _ _ hji, getD_set_ne _ _ _ _ _ hji]
          rw [hres j hj]
          by_cases hfj : rv.finished.getD j false = true
          · rw [if_pos ⟨hfj, by omega⟩, if_pos hfj]
          · rw [if_neg (fun h => hfj h.1), if_neg hfj])
    obtain ⟨c1, c2, c3, c4, c5, c6⟩ := hd
    have hstep : resultStep n true rv i (rval i)
        = drainLoop n (n - leadTrue rv.finished)
            { rv with
              finished := rv.finished.set i true
              numFinished := rv.numFinished + 1
              results := rv.results.set i (some (rval i)) } := by
      rw [resultStep]
      simp only [if_true, hlast]
    rw [hstep]
    refine ⟨⟨?_, ?_, ?_, ?_⟩, ?_, ?_, ?_, ?_⟩
    · rw [c2]
      simpa using hlen
    · exact c5
    · rw [c3, c2]
      show rv.numFinished + 1 = (rv.finished.set i true).count true
      omega
    · intro _
      constructor
      · rw [c4, c2]
      · intro j hj
        rw [c6 j hj, c2]
    · rw [c2]
    · rw [c3]
    · intro _
      exact ⟨by rw [c1], by rw [c4]⟩
    · intro h
      exact Bool.noConfusion h

/-- Classify a completion event: `some (i, v)` when it is a `Success` for a
`ResultTask` with output index `i` carrying value `v` (the value the
dispatch code would store), `none` otherwise. -/
def CompletionEvent.resultSuccess? {R : Type} [Inhabited R]
    (e : CompletionEvent R) : Option (Nat × R) :=
  match e.reason, e.task.kind with
  | .success, .result outputId _ => some (outputId, e.result.valueD)
  | _, _ => none

theorem submitMissingTasks_run {V R : Type} (cfg : LoopCfg V)
    (st : LoopState V R) (w : Nat) :
    (submitMissingTasks cfg st w).run = st.run := by
  rw [submitMissingTasks]
  split
  · rfl
  · rfl

theorem foldl_submitMissingTasks_run {V R : Type} (cfg : LoopCfg V)
    (l : List Nat) (st : LoopState V R) :
    (l.foldl (fun acc w => submitMissingTasks cfg acc w) st).run = st.run := by
  induction l generalizing st with
  | nil => rfl
  | cons w ws ih => rw [List.foldl_cons, ih, submitMissingTasks_run]

theorem shuffleArm_run {V R : Type} (cfg : LoopCfg V) (st : LoopState V R)
    (stageId : Nat) (stage : Stage V) (partition : Nat) (host : String)
    (pendAfter : List Nat) :
    (shuffleArm cfg st stageId stage partition host pendAfter).1.run = st.run ∧
    (shuffleArm cfg st stageId stage partition host pendAfter).2.1 = [] := by
  rw [shuffleArm]
  simp only
  split
  · split
    · refine ⟨?_, rfl⟩
      rw [foldl_submitMissingTasks_run]
      split
      · rfl
      · rfl
    · exact ⟨rfl, rfl⟩
  · exact ⟨rfl, rfl⟩

/-- An event that is not a `ResultTask` success never yields and never
touches the result-streaming variables (it may mutate stages, pending sets,
and submit new shuffle tasks). -/
theorem handleEvent_not_result {V R : Type} [Inhabited R] (cfg : LoopCfg V)
    (st : LoopState V R) (e : CompletionEvent R)
    (hcls : e.resultSuccess? = none) :
    ((handleEvent cfg st e).1.run = st.run ∧ (handleEvent cfg st e).2.1 = []) ∨
    (handleEvent cfg st e).2.2 ≠ StepNote.ok := by
  rw [handleEvent]
  cases hs : alookup st.sched.idToStage e.task.stageId with
  | none =>
    rw [handleStage]
    right
    intro h
    exact StepNote.noConfusion h
  | some stage =>
    rw [handleStage]
    cases hp : alookup st.pendingTasks e.task.stageId with
    | none =>
      rw [handlePending]
      left
      exact ⟨rfl, rfl⟩
    | some pend =>
      rw [handlePending]
      by_cases hmem : e.task.id ∈ pend
      · rw [if_pos hmem]
        cases hr : e.reason with
        | success =>
          cases hk : e.task.kind with
          | result outputId part =>
            exfalso
            rw [CompletionEvent.resultSuccess?] at hcls
            rw [hr, hk] at hcls
            exact Option.noConfusion hcls
          | shuffleMap partition =>
            rw [dispatchEvent]
            have harm := shuffleArm_run cfg
              { st with pendingTasks := aset st.pendingTasks e.task.stageId
                          (pend.erase e.task.id) }
              e.task.stageId stage partition
              e.result.hostD
              (pend.erase e.task.id)
            exact Or.inl ⟨harm.1, harm.2⟩
        | fetchFailed u si mi ri =>
          rw [dispatchEvent]
          left
          exact ⟨rfl, rfl⟩
        | otherFailure m =>
          rw [dispatchEvent]
          right
          intro h
          exact StepNote.noConfusion h
      · rw [if_neg hmem]
        right
        intro h
        exact StepNote.noConfusion h

/-- A `ResultTask`-success event either is silently discarded (its stage
has no entry in `pendingTasks`), or performs exactly a `resultStep` on the
result variables, or escapes with an error note. -/
theorem handleEvent_result {V R : Type} [Inhabited R] (cfg : LoopCfg V)
    (st : LoopState V R) (e : CompletionEvent R) (i : Nat) (v : R)
    (hcls : e.resultSuccess? = some (i, v)) :
    ((handleEvent cfg st e).1.run = st.run ∧ (handleEvent cfg st e).2.1 = []) ∨
    (i < st.run.finished.length ∧
      (handleEvent cfg st e).1.run
        = (resultStep cfg.outputParts.length cfg.keepOrder st.run i v).2 ∧
      (handleEvent cfg st e).2.1
        = (resultStep cfg.outputParts.length cfg.keepOrder st.run i v).1) ∨
    (handleEvent cfg st e).2.2 ≠ StepNote.ok := by
  rw [handleEvent]
  cases hs : alookup st.sched.idToStage e.task.stageId with
  | none =>
    rw [handleStage]
    right; right
    intro h
    exact StepNote.noConfusion h
  | some stage =>
    rw [handleStage]
    cases hp : alookup st.pendingTasks e.task.stageId with
    | none =>
      rw [handlePending]
      left
      exact ⟨rfl, rfl⟩
    | some pend =>
      rw [handlePending]
      by_cases hmem : e.task.id ∈ pend
      · rw [if_pos hmem]
        cases hr : e.reason with
        | success =>
          cases hk : e.task.kind with
          | result outputId part =>
            rw [dispatchEvent, dispatchSuccess]
            rw [CompletionEvent.resultSuccess?] at hcls
            rw [hr, hk] at hcls
            have hinj := Option.some.inj hcls
            have hout1 : outputId = i := congrArg Prod.fst hinj
            have hout2 : e.result.valueD = v := congrArg Prod.snd hinj
            subst hout1
            rw [hout2]
            split
            · next hlt => exact Or.inr (Or.inl ⟨hlt, rfl, rfl⟩)
            · right; right
              intro h
              exact StepNote.noConfusion h
          | shuffleMap partition =>
            exfalso
            rw [CompletionEvent.resultSuccess?] at hcls
            rw [hr, hk] at hcls
            exact Option.noConfusion hcls
        | fetchFailed u si mi ri =>
          exfalso
          rw [CompletionEvent.resultSuccess?] at hcls
          rw [hr] at hcls
          exact Option.noConfusion hcls
        | otherFailure m =>
          exfalso
          rw [CompletionEvent.resultSuccess?] at hcls
          rw [hr] at hcls
          exact Option.noConfusion hcls
      · rw [if_neg hmem]
        right; right
        intro h
        exact StepNote.noConfusion h

/-- The `ResultTask`-success events of a queue, as `(outputId, value)`
pairs, in queue order. -/
def resultEvents {R : Type} [Inhabited R] (events : List (CompletionEvent R)) :
    List (Nat × R) :=
  events.filterMap CompletionEvent.resultSuccess?

theorem resultEvents_cons_none {R : Type} [Inhabited R] (e : CompletionEvent R)
    (rest : List (CompletionEvent R)) (h : e.resultSuccess? = none) :
    resultEvents (e :: rest) = resultEvents rest := by
  simp [resultEvents, List.filterMap_cons, h]

theorem resultEvents_cons_some {R : Type} [Inhabited R] (e : CompletionEvent R)
    (rest : List (CompletionEvent R)) (i : Nat) (v : R)
    (h : e.resultSuccess? = some (i, v)) :
    resultEvents (e :: rest) = (i, v) :: resultEvents rest := by
  simp [resultEvents, List.filterMap_cons, h]

/-- At loop exit (`numFinished = n`) the invariant forces every output
finished, and — under `keep_order` — `lastFinished = n` with an all-`None`
buffer. -/
theorem runLoop_done_state {R : Type} [Inhabited R] (n : Nat) (keepOrder : Bool)
    (rval : Nat → R) (rv : RunVars R)
    (hInv : RunInv n keepOrder rval rv) (hdone : rv.numFinished = n) :
    (∀ j, j < n → rv.finished.getD j false = true) ∧
    (keepOrder = true →
      rv.lastFinished = n ∧ (∀ x ∈ rv.results, x = none)) := by
  obtain ⟨hlen, hrlen, hcnt, hko⟩ := hInv
  have hcount : rv.finished.count true = rv.finished.length := by omega
  have hall : ∀ j, j < n → rv.finished.getD j false = true := by
    intro j hj
    exact all_true_of_count_eq_length rv.finished hcount j (by omega)
  refine ⟨hall, ?_⟩
  intro hkoT
  obtain ⟨hlast, hres⟩ := hko hkoT
  have hltn : leadTrue rv.finished = n := by
    rw [leadTrue_eq_length_of_all_true rv.finished
      (by intro j hj; exact hall j (by omega)), hlen]
  refine ⟨by omega, ?_⟩
  intro x hx
  obtain ⟨k, hk, hkx⟩ := List.mem_iff_getElem.mp hx
  have hgd : rv.results.getD k none = x := by
    rw [List.getD_eq_getElem?_getD, List.getElem?_eq_getElem hk]
    exact congrArg (Option.getD · none) (congrArg some hkx)
  have hrk := hres k (by omega)
  rw [hgd] at hrk
  rw [hrk, if_neg]
  exact fun h => absurd h.2 (by omega)

/-- The conclusions of the loop lemma in the case where the loop exits
immediately (`numFinished = n` on entry): its remaining result events must
all be stale, hence none exist. -/
theorem runLoop_done_conclusions {V R : Type} [Inhabited R] (cfg : LoopCfg V)
    (rval : Nat → R) (events : List (CompletionEvent R))
    (st st2 : LoopState V R) (ys : List R)
    (hInv : RunInv cfg.outputParts.length cfg.keepOrder rval st.run)
    (hvals : ∀ p ∈ resultEvents events,
      p.1 < cfg.outputParts.length ∧ p.2 = rval p.1)
    (hunproc : ∀ p ∈ resultEvents events,
      st.run.finished.getD p.1 false = false)
    (hys : ys = []) (hst : st = st2)
    (hdone : st.run.numFinished = cfg.outputParts.length) :
    RunInv cfg.outputParts.length cfg.keepOrder rval st2.run ∧
    st2.run.numFinished = cfg.outputParts.length ∧
    (∀ j, st2.run.finished.getD j false = true →
      st.run.finished.getD j false = true ∨
        j ∈ (resultEvents events).map Prod.fst) ∧
    (cfg.keepOrder = true →
      ys = (List.range' st.run.lastFinished
        (cfg.outputParts.length - st.run.lastFinished)).map rval ∧
      (∀ x ∈ st2.run.results, x = none)) ∧
    (cfg.keepOrder = false →
      ys = ((resultEvents events).map Prod.fst).map rval) := by
  subst hst
  subst hys
  obtain ⟨hall, hko⟩ :=
    runLoop_done_state cfg.outputParts.length cfg.keepOrder rval st.run hInv hdone
  have hempty : resultEvents events = [] := by
    cases hre : resultEvents (R := R) events with
    | nil => rfl
    | cons p ps =>
      exfalso
      have hmem : p ∈ resultEvents events := by
        rw [hre]
        exact List.mem_cons_self p ps
      have hv1 := (hvals p hmem).1
      have hv2 := hunproc p hmem
      rw [hall p.1 hv1] at hv2
      exact Bool.noConfusion hv2
  refine ⟨hInv, hdone, ?_, ?_, ?_⟩
  · intro j hj
    exact Or.inl hj
  · intro hkoT
    obtain ⟨hlastn, hnone⟩ := hko hkoT
    refine ⟨?_, hnone⟩
    rw [hlastn]
    simp
  · intro hkoF
    rw [hempty]
    rfl

/-- Joining one drain's yields with the rest of the ordered stream. -/
theorem range'_map_append {R : Type} (rval : Nat → R) (a b n : Nat)
    (h1 : a ≤ b) (h2 : b ≤ n) :
    (List.range' a (b - a)).map rval ++ (List.range' b (n - b)).map rval
      = (List.range' a (n - a)).map rval := by
  rw [← List.map_append]
  have hr := List.range'_append a (b - a) (n - b) 1
  rw [show a + 1 * (b - a) = b by omega] at hr
  rw [show n - b + (b - a) = n - a by omega] at hr
  rw [hr]

/-- The master lemma for the event loop: over any event queue whose
`ResultTask` successes hit each still-unfinished output at most once with
its task's value, a run that reaches `numFinished = n` yields — under
`keep_order` — exactly the ordered segment from `lastFinished` to `n`, and
— without `keep_order` — the values in completion order; the buffer ends
all-`None` and every newly finished output is accounted to some event. -/
theorem runLoop_master {V R : Type} [Inhabited R] (cfg : LoopCfg V)
    (rval : Nat → R) :
    ∀ (events : List (CompletionEvent R)) (st : LoopState V R)
      (ys : List R) (st2 : LoopState V R),
    RunInv cfg.outputParts.length cfg.keepOrder rval st.run →
    (∀ p ∈ resultEvents events,
      p.1 < cfg.outputParts.length ∧ p.2 = rval p.1) →
    ((resultEvents events).map Prod.fst).Nodup →
    (∀ p ∈ resultEvents events, st.run.finished.getD p.1 false = false) →
    runLoop cfg st events = (ys, .done st2) →
    RunInv cfg.outputParts.length cfg.keepOrder rval st2.run ∧
    st2.run.numFinished = cfg.outputParts.length ∧
    (∀ j, st2.run.finished.getD j false = true →
      st.run.finished.getD j false = true ∨
        j ∈ (resultEvents events).map Prod.fst) ∧
    (cfg.keepOrder = true →
      ys = (List.range' st.run.lastFinished
        (cfg.outputParts.length - st.run.lastFinished)).map rval ∧
      (∀ x ∈ st2.run.results, x = none)) ∧
    (cfg.keepOrder = false →
      ys = ((resultEvents events).map Prod.fst).map rval) := by
  intro events
  induction events with
  | nil =>
    intro st ys st2 hInv hvals hnodup hunproc hrun
    rw [runLoop] at hrun
    by_cases hdone : st.run.numFinished = cfg.outputParts.length
    · rw [if_pos hdone] at hrun
      injection hrun with h1 h2
      injection h2 with h3
      exact runLoop_done_conclusions cfg rval [] st st2 ys hInv hvals hunproc
        h1.symm h3 hdone
    · rw [if_neg hdone] at hrun
      injection hrun with h1 h2
      exact LoopOutcome.noConfusion h2
  | cons e rest ih =>
    intro st ys st2 hInv hvals hnodup hunproc hrun
    rw [runLoop] at hrun
    by_cases hdone : st.run.numFinished = cfg.outputParts.length
    · rw [if_pos hdone] at hrun
      injection hrun with h1 h2
      injection h2 with h3
      exact runLoop_done_conclusions cfg rval (e :: rest) st st2 ys hInv hvals
        hunproc h1.symm h3 hdone
    · rw [if_neg hdone] at hrun
      rcases hhe : handleEvent cfg st e with ⟨st1, ys1, note⟩
      rw [hhe] at hrun
      cases note with
      | raised r =>
        rw [runLoopCont] at hrun
        injection hrun with h1 h2
        exact LoopOutcome.noConfusion h2
      | keyError =>
        rw [runLoopCont] at hrun
        injection hrun with h1 h2
        exact LoopOutcome.noConfusion h2
      | ok =>
        rw [runLoopCont] at hrun
        injection hrun with hy ho
        have hq : runLoop cfg st1 rest = ((runLoop cfg st1 rest).1,
            LoopOutcome.done st2) := by
          rw [← ho]
        cases hcls : e.resultSuccess? with
        | none =>
          have hre := resultEvents_cons_none e rest hcls
          rcases handleEvent_not_result cfg st e hcls with ⟨hrn, hys1⟩ | hne
          · rw [hhe] at hrn hys1
            have hrn2 : st1.run = st.run := hrn
            have hys2 : ys1 = [] := hys1
            rw [hre] at hvals hnodup hunproc
            obtain ⟨ih1, ih2, ih3, ih4, ih5⟩ := ih st1 (runLoop cfg st1 rest).1
              st2 (by rw [hrn2]; exact hInv) hvals hnodup
              (by rw [hrn2]; exact hunproc) hq
            refine ⟨ih1, ih2, ?_, ?_, ?_⟩
            · intro j hj
              rw [hre]
              rcases ih3 j hj with h | h
              · left
                rw [← hrn2]
                exact h
              · right
                exact h
            · intro hkoT
              obtain ⟨ihy, ihnone⟩ := ih4 hkoT
              refine ⟨?_, ihnone⟩
              rw [← hy, hys2, ihy, hrn2]
              rfl
            · intro hkoF
              rw [← hy, hys2, ih5 hkoF, hre]
              rfl
          · exfalso
            apply hne
            rw [hhe]
        | some p =>
          obtain ⟨i, v⟩ := p
          have hre := resultEvents_cons_some e rest i v hcls
          have hmemhead : (i, v) ∈ resultEvents (e :: rest) := by
            rw [hre]
            exact List.mem_cons_self _ _
          have hin : i < cfg.outputParts.length := (hvals _ hmemhead).1
          have hvv : v = rval i := (hvals _ hmemhead).2
          have hfi : st.run.finished.getD i false = false := hunproc _ hmemhead
          have hnodup2 : ((resultEvents rest).map Prod.fst).Nodup ∧
              i ∉ (resultEvents rest).map Prod.fst := by
            rw [hre] at hnodup
            simp only [List.map_cons, List.nodup_cons] at hnodup
            exact ⟨hnodup.2, hnodup.1⟩
          rcases handleEvent_result cfg st e i v hcls with
            ⟨hrn, hys1⟩ | ⟨hlt, hrn, hys1⟩ | hne
          · -- silently discarded: impossible in a completing run
            exfalso
            rw [hhe] at hrn hys1
            have hrn2 : st1.run = st.run := hrn
            obtain ⟨ih1, ih2, ih3, ih4, ih5⟩ := ih st1 (runLoop cfg st1 rest).1
              st2 (by rw [hrn2]; exact hInv)
              (fun p hp => hvals p (by rw [hre]; exact List.mem_cons_of_mem _ hp))
              hnodup2.1
              (fun p hp => by
                rw [hrn2]
                exact hunproc p (by rw [hre]; exact List.mem_cons_of_mem _ hp))
              hq
            have hall := (runLoop_done_state cfg.outputParts.length cfg.keepOrder
              rval st2.run ih1 ih2).1
            rcases ih3 i (hall i hin) with h | h
            · rw [hrn2, hfi] at h
              exact Bool.noConfusion h
            · exact hnodup2.2 h
          · -- the live result step
            rw [hhe] at hrn hys1
            rw [hvv] at hrn hys1
            have hys2 : ys1 = (resultStep cfg.outputParts.length cfg.keepOrder
                st.run i (rval i)).1 := hys1
            obtain ⟨rs1, rs2, rs3, rs4, rs5⟩ := resultStep_spec
              cfg.outputParts.length cfg.keepOrder rval st.run i hInv hin hfi
            have hrn2 : st1.run =
                (resultStep cfg.outputParts.length cfg.keepOrder st.run i
                  (rval i)).2 := hrn
            obtain ⟨ih1, ih2, ih3, ih4, ih5⟩ := ih st1 (runLoop cfg st1 rest).1
              st2 (by rw [hrn2]; exact rs1)
              (fun p hp => hvals p (by rw [hre]; exact List.mem_cons_of_mem _ hp))
              hnodup2.1
              (fun p hp => by
                rw [hrn2, rs2]
                rw [getD_set_ne _ _ _ _ _ (by
                  intro hip
                  apply hnodup2.2
                  rw [hip]
                  exact List.mem_map_of_mem Prod.fst hp)]
                exact hunproc p (by rw [hre]; exact List.mem_cons_of_mem _ hp))
              hq
            refine ⟨ih1, ih2, ?_, ?_, ?_⟩
            · intro j hj
              rw [hre]
              rcases ih3 j hj with h | h
              · rw [hrn2, rs2] at h
                by_cases hji : i = j
                · right
                  rw [List.map_cons]
                  rw [← hji]
                  exact List.mem_cons_self _ _
                · left
                  rw [getD_set_ne _ _ _ _ _ hji] at h
                  exact h
              · right
                rw [List.map_cons]
                exact List.mem_cons_of_mem _ h
            · intro hkoT
              obtain ⟨ihy, ihnone⟩ := ih4 hkoT
              obtain ⟨rsy, rslast⟩ := rs4 hkoT
              refine ⟨?_, ihnone⟩
              rw [← hy, hys2, rsy, ihy]
              rw [hrn2, rslast]
              obtain ⟨hlen0, hrlen0, hcnt0, hko0⟩ := hInv
              have hlast0 := (hko0 hkoT).1
              have hb1 : st.run.lastFinished ≤ leadTrue (st.run.finished.set i true) := by
                rw [hlast0]
                exact leadTrue_le_leadTrue_set_true _ _
              have hb2 : leadTrue (st.run.finished.set i true) ≤
                  cfg.outputParts.length := by
                have := leadTrue_le_length (st.run.finished.set i true)
                rw [List.length_set, hlen0] at this
                exact this
              exact range'_map_append rval st.run.lastFinished
                (leadTrue (st.run.finished.set i true))
                cfg.outputParts.length hb1 hb2
            · intro hkoF
              rw [← hy, hys2, rs5 hkoF, ih5 hkoF, hre]
              rfl
          · exfalso
            apply hne
            rw [hhe]

/-- `submitStage`/`submitStageList` never touch the result-streaming
variables. -/
theorem submitStage_run_all {V R : Type} (cfg : LoopCfg V) :
    ∀ fuel : Nat,
      (∀ (st : LoopState V R) (sid : Nat), (submitStage cfg fuel st sid).run = st.run) ∧
      (∀ (st : LoopState V R) (l : List Nat), (submitStageList cfg fuel st l).run = st.run) := by
  intro fuel
  induction fuel with
  | zero =>
    have hstage : ∀ (st : LoopState V R) (sid : Nat),
        (submitStage cfg 0 st sid).run = st.run := by
      intro st sid
      rw [submitStage]
    refine ⟨hstage, ?_⟩
    intro st l
    induction l generalizing st with
    | nil => rw [submitStageList]
    | cons p ps ihl =>
      rw [submitStageList, ihl, hstage]
  | succ fuel ih =>
    have hstage : ∀ (st : LoopState V R) (sid : Nat),
        (submitStage cfg (fuel + 1) st sid).run = st.run := by
      intro st sid
      rw [submitStage]
      split
      · rfl
      · split
        · rfl
        · dsimp only
          split
          · simp only [submitMissingTasks_run]
          · simp only [ih.2]
    refine ⟨hstage, ?_⟩
    intro st l
    induction l generalizing st with
    | nil => rw [submitStageList]
    | cons p ps ihl =>
      rw [submitStageList, ihl, hstage]

theorem getD_replicate_false (n j : Nat) :
    (List.replicate n false).getD j false = false := by
  rw [List.getD_eq_getElem?_getD, List.getElem?_replicate]
  split <;> rfl

theorem leadTrue_replicate_false (n : Nat) : leadTrue (List.replicate n false) = 0 := by
  cases n with
  | zero => rfl
  | succ m => simp [List.replicate, leadTrue]

/-- The fresh result variables of a run satisfy the loop invariant. -/
theorem RunInv_initial {R : Type} (n : Nat) (keepOrder : Bool) (rval : Nat → R) :
    RunInv n keepOrder rval
      ⟨List.replicate n none, List.replicate n false, 0, 0⟩ := by
  refine ⟨by simp, by simp, by simp [List.count_replicate], ?_⟩
  intro _
  refine ⟨by simp [leadTrue_replicate_false], ?_⟩
  intro i hi
  rw [getD_replicate_false, leadTrue_replicate_false]
  simp only [Bool.false_eq_true, false_and, if_false]
  rw [List.getD_eq_getElem?_getD, List.getElem?_replicate]
  split <;> rfl

/-- The per-output value each `ResultTask`-success event of a run carries
(modelled from the spec: the task body computes
`fn(finalRdd.iterator(splits[partitions[i]]))`). -/
def runRval {V R : Type} (finalRdd : RDD V) (func : List V → R)
    (partitions : List Nat) : Nat → R :=
  fun i => resultTaskRun finalRdd func (partitions.getD i 0)

/-- C1: for a `runJob` call whose scheduling loop completes (`numFinished`
reaches `|partitions|`) over an event queue in which each output index is
completed exactly once by a `ResultTask` success carrying its task's value,
the yielded sequence with `keep_order` is exactly
`[fn(iter(partitions[0])), …, fn(iter(partitions[n-1]))]` in partition
order, and for either `keep_order` setting the yields are a permutation of
that list (the multiset equality). -/
theorem runJob_results {V R : Type} [Inhabited R] (env : Env V)
    (s0 : SchedState V) (finalRdd : RDD V) (func : List V → R)
    (partitions : List Nat) (allowLocal keepOrder : Bool) (fuel : Nat)
    (events : List (CompletionEvent R)) (st2 : LoopState V R)
    (hvals : ∀ p ∈ resultEvents events, p.1 < partitions.length ∧
      p.2 = runRval finalRdd func partitions p.1)
    (hnodup : ((resultEvents events).map Prod.fst).Nodup)
    (hdone : (runJob env s0 finalRdd func partitions allowLocal keepOrder fuel
      events).2.2 = .cluster (.done st2)) :
    (keepOrder = true →
      (runJob env s0 finalRdd func partitions allowLocal keepOrder fuel
          events).1
        = (List.range partitions.length).map (runRval finalRdd func partitions)) ∧
    (runJob env s0 finalRdd func partitions allowLocal keepOrder fuel
        events).1.Perm
      ((List.range partitions.length).map (runRval finalRdd func partitions)) := by
  rw [runJob] at hdone ⊢
  by_cases hcond : runJobCond env s0 finalRdd allowLocal partitions = true
  · rw [if_pos hcond] at hdone
    exact JobOutcome.noConfusion hdone
  · rw [if_neg hcond] at hdone ⊢
    have hlo : (runJobLoop env s0 finalRdd partitions allowLocal keepOrder fuel
        events).2 = LoopOutcome.done st2 := by
      have hdone2 : JobOutcome.cluster (V := V) (R := R)
          (runJobLoop env s0 finalRdd partitions allowLocal keepOrder fuel
            events).2 = .cluster (.done st2) := hdone
      injection hdone2
    have hq : runLoop (runJobCfg env s0 finalRdd partitions keepOrder)
        (submitStage (runJobCfg env s0 finalRdd partitions keepOrder) fuel
          (initialLoopState (runJobGuard env s0 finalRdd allowLocal).2
            partitions.length)
          (runJobSetup env s0 finalRdd).1)
        events
        = ((runJobLoop env s0 finalRdd partitions allowLocal keepOrder fuel
            events).1, LoopOutcome.done st2) := by
      rw [← hlo]
      exact Prod.mk.eta.symm
    have hrunpres : (submitStage (runJobCfg env s0 finalRdd partitions keepOrder)
        fuel (initialLoopState (runJobGuard env s0 finalRdd allowLocal).2
          partitions.length)
        (runJobSetup env s0 finalRdd).1).run
        = (⟨List.replicate partitions.length none,
            List.replicate partitions.length false, 0, 0⟩ : RunVars R) :=
      (submitStage_run_all _ fuel).1 _ _
    obtain ⟨m1, m2, m3, m4, m5⟩ := runLoop_master
      (runJobCfg env s0 finalRdd partitions keepOrder)
      (runRval finalRdd func partitions) events _ _ st2
      (by rw [hrunpres]; exact RunInv_initial _ _ _)
      hvals hnodup
      (by
        intro p hp
        rw [hrunpres]
        exact getD_replicate_false _ _)
      hq
    have hall := (runLoop_done_state partitions.length keepOrder
      (runRval finalRdd func partitions) st2.run m1 m2).1
    have hperm : ((resultEvents events).map Prod.fst).Perm
        (List.range partitions.length) := by
      rw [List.perm_ext_iff_of_nodup hnodup (List.nodup_range _)]
      intro a
      constructor
      · intro ha
        rcases List.mem_map.mp ha with ⟨p, hp, hpa⟩
        rw [List.mem_range, ← hpa]
        exact (hvals p hp).1
      · intro ha
        rcases m3 a (hall a (List.mem_range.mp ha)) with h | h
        · rw [hrunpres] at h
          rw [getD_replicate_false] at h
          exact Bool.noConfusion h
        · exact h
    cases keepOrder with
    | true =>
      obtain ⟨hyy, _⟩ := m4 rfl
      rw [hrunpres] at hyy
      have hy2 : (runJobLoop env s0 finalRdd partitions allowLocal true fuel
          events).1 = (List.range partitions.length).map
            (runRval finalRdd func partitions) := by
        rw [hyy]
        rw [List.range_eq_range']
        rfl
      exact ⟨fun _ => hy2, by rw [hy2]⟩
    | false =>
      have hyy := m5 rfl
      refine ⟨fun h => Bool.noConfusion h, ?_⟩
      rw [hyy]
      exact List.Perm.map _ hperm

/-- C9: when the `keep_order` loop exits normally (`numFinished` equals the
number of output partitions), every buffered result has been yielded and
its slot reset: the trailing `assert not any(results)` always holds, with
`lastFinished` advanced past every slot. -/
theorem runJob_final_buffer_drained {V R : Type} [Inhabited R] (env : Env V)
    (s0 : SchedState V) (finalRdd : RDD V) (func : List V → R)
    (partitions : List Nat) (allowLocal : Bool) (fuel : Nat)
    (events : List (CompletionEvent R)) (st2 : LoopState V R)
    (hvals : ∀ p ∈ resultEvents events, p.1 < partitions.length ∧
      p.2 = runRval finalRdd func partitions p.1)
    (hnodup : ((resultEvents events).map Prod.fst).Nodup)
    (hdone : (runJob env s0 finalRdd func partitions allowLocal true fuel
      events).2.2 = .cluster (.done st2)) :
    st2.run.results.all (fun x => x.isNone) = true ∧
    st2.run.lastFinished = partitions.length := by
  rw [runJob] at hdone
  by_cases hcond : runJobCond env s0 finalRdd allowLocal partitions = true
  · rw [if_pos hcond] at hdone
    exact JobOutcome.noConfusion hdone
  · rw [if_neg hcond] at hdone
    have hlo : (runJobLoop env s0 finalRdd partitions allowLocal true fuel
        events).2 = LoopOutcome.done st2 := by
      have hdone2 : JobOutcome.cluster (V := V) (R := R)
          (runJobLoop env s0 finalRdd partitions allowLocal true fuel
            events).2 = .cluster (.done st2) := hdone
      injection hdone2
    have hq : runLoop (runJobCfg env s0 finalRdd partitions true)
        (submitStage (runJobCfg env s0 finalRdd partitions true) fuel
          (initialLoopState (runJobGuard env s0 finalRdd allowLocal).2
            partitions.length)
          (runJobSetup env s0 finalRdd).1)
        events
        = ((runJobLoop env s0 finalRdd partitions allowLocal true fuel
            events).1, LoopOutcome.done st2) := by
      rw [← hlo]
      exact Prod.mk.eta.symm
    have hrunpres : (submitStage (runJobCfg env s0 finalRdd partitions true)
        fuel (initialLoopState (runJobGuard env s0 finalRdd allowLocal).2
          partitions.length)
        (runJobSetup env s0 finalRdd).1).run
        = (⟨List.replicate partitions.length none,
            List.replicate partitions.length false, 0, 0⟩ : RunVars R) :=
      (submitStage_run_all _ fuel).1 _ _
    obtain ⟨m1, m2, m3, m4, m5⟩ := runLoop_master
      (runJobCfg env s0 finalRdd partitions true)
      (runRval finalRdd func partitions) events _ _ st2
      (by rw [hrunpres]; exact RunInv_initial _ _ _)
      hvals hnodup
      (by
        intro p hp
        rw [hrunpres]
        exact getD_replicate_false _ _)
      hq
    obtain ⟨_, hnone⟩ := m4 rfl
    have hlast := ((runLoop_done_state partitions.length true
      (runRval finalRdd func partitions) st2.run m1 m2).2 rfl).1
    refine ⟨?_, hlast⟩
    rw [List.all_eq_true]
    intro x hx
    rw [hnone x hx]
    rfl

/-- C2: on a completion event for a pending stage whose reason is not
`Success`, the loop removes the task from the stage's pending set and
then: for `FetchFailed` it does nothing else (the state is exactly the
input state with the task dropped from `pendingTasks` — in particular the
`failed` set, the stages with their `outputLocs`, and every trace are
untouched) and the loop continues; for `OtherFailure` the same removal
happens and the reason is raised out of the generator. -/
theorem handleEvent_failure_arms {V R : Type} [Inhabited R] (cfg : LoopCfg V)
    (st : LoopState V R) (e : CompletionEvent R) (stage : Stage V)
    (pend : List Nat)
    (hs : alookup st.sched.idToStage e.task.stageId = some stage)
    (hp : alookup st.pendingTasks e.task.stageId = some pend)
    (hmem : e.task.id ∈ pend) :
    (∀ u si mi ri, e.reason = .fetchFailed u si mi ri →
      handleEvent cfg st e =
        ({ st with pendingTasks := aset st.pendingTasks e.task.stageId
                     (pend.erase e.task.id) }, [], .ok)) ∧
    (∀ m, e.reason = .otherFailure m →
      handleEvent cfg st e =
        ({ st with pendingTasks := aset st.pendingTasks e.task.stageId
                     (pend.erase e.task.id) }, [], .raised (.otherFailure m))) := by
  constructor
  · intro u si mi ri hr
    rw [handleEvent, hs, handleStage, hp, handlePending, if_pos hmem, hr,
      dispatchEvent]
  · intro m hr
    rw [handleEvent, hs, handleStage, hp, handlePending, if_pos hmem, hr,
      dispatchEvent]

def c2Stage : Stage Nat := Stage.make 1 (RDD.node 1 false 1 [] [] []) none []

def c2State : LoopState Nat Nat :=
  { sched := ⟨1, [(1, c2Stage)], [], []⟩
    run := ⟨[none], [false], 0, 0⟩
    waiting := [], running := [1], failed := [], pendingTasks := [(1, [5])]
    nextTaskId := 6, submitted := [], registeredOutputs := [] }

def c2Cfg : LoopCfg Nat := ⟨⟨[]⟩, 1, RDD.node 1 false 1 [] [] [], [0], true⟩

def c2EventFF : CompletionEvent Nat :=
  ⟨⟨5, 1, .result 0 0, []⟩, .fetchFailed "srv" 7 0 0, .value 0⟩

def c2EventOF : CompletionEvent Nat :=
  ⟨⟨5, 1, .result 0 0, []⟩, .otherFailure "boom", .value 0⟩

/-- Witness for C2: a concrete pending stage with one pending task; the
`FetchFailed` event only unpends the task, the `OtherFailure` event does
the same and raises. -/
theorem handleEvent_failure_arms_witness :
    handleEvent c2Cfg c2State c2EventFF
      = ({ c2State with pendingTasks := aset c2State.pendingTasks 1 [] },
         [], .ok) ∧
    handleEvent c2Cfg c2State c2EventOF
      = ({ c2State with pendingTasks := aset c2State.pendingTasks 1 [] },
         [], .raised (.otherFailure "boom")) := by
  constructor
  · exact (handleEvent_failure_arms c2Cfg c2State c2EventFF c2Stage [5]
      rfl rfl (by decide)).1 "srv" 7 0 0 rfl
  · exact (handleEvent_failure_arms c2Cfg c2State c2EventOF c2Stage [5]
      rfl rfl (by decide)).2 "boom" rfl

def c3Rdd : RDD Nat := RDD.node 1 false 1 [["h"]] [[1, 2, 3]] []

def c3Func : List Nat → Nat := fun l => l.foldl (fun a b => a + b) 0

/-- Witness for C3 at a concrete one-partition dataset: the single output
is computed inline and no batch is submitted. -/
theorem runJob_local_fast_path_witness :
    (runJob (⟨[]⟩ : Env Nat) ⟨0, [], [], []⟩ c3Rdd c3Func [0] true true 3 []).1
      = [6] ∧
    (runJob (⟨[]⟩ : Env Nat) ⟨0, [], [], []⟩ c3Rdd c3Func [0] true true 3
      []).2.1 = [] ∧
    (runJob (⟨[]⟩ : Env Nat) ⟨0, [], [], []⟩ c3Rdd c3Func [0] true true 3
      []).2.2.isLocal = true := by
  have h := runJob_local_fast_path (⟨[]⟩ : Env Nat) ⟨0, [], [], []⟩ c3Rdd c3Func
    [0] true 3 [] rfl (Or.inl (by
      simp [runJobSetup, newStage, getParentStages, parentVisit, parentVisitDeps,
        getMissingParentStages, missingVisit, missingVisitDeps, alookup, aset,
        aerase, Stage.make, c3Rdd, getCacheLocs, RDD.id, RDD.deps,
        RDD.shouldCache, RDD.numParts]))
  exact ⟨h.1.trans (by decide), h.2.1, h.2.2⟩

def c1Rdd : RDD Nat :=
  RDD.node 1 false 3 [["h1"], ["h2"], ["h3"]] [[1, 2], [3, 4], [5, 6]] []

def c1Func : List Nat → Nat := fun l => l.foldl (fun a b => a + b) 0

/-- Completion events arriving out of output order ([2, 0, 1]), each task
carrying its partition's computed value. -/
def c1Events : List (CompletionEvent Nat) :=
  [⟨⟨2, 1, .result 2 2, ["h3"]⟩, .success, .value 11⟩,
   ⟨⟨0, 1, .result 0 0, ["h1"]⟩, .success, .value 3⟩,
   ⟨⟨1, 1, .result 1 1, ["h2"]⟩, .success, .value 7⟩]

def c1Out : List Nat × List (List Task) × JobOutcome Nat Nat :=
  runJob ⟨[]⟩ ⟨0, [], [], []⟩ c1Rdd c1Func [0, 1, 2] false true 10 c1Events

def c1FinalState : LoopState Nat Nat :=
  match c1Out.2.2 with
  | .cluster (.done st) => st
  | _ => initialLoopState ⟨0, [], [], []⟩ 0

set_option maxRecDepth 8192 in
/-- Witness for C1: a three-partition sum job completing out of order
yields `[3, 7, 11]` in partition order. -/
theorem runJob_results_witness :
    (runJob (⟨[]⟩ : Env Nat) ⟨0, [], [], []⟩ c1Rdd c1Func [0, 1, 2] false true
      10 c1Events).1 = [3, 7, 11] ∧
    (runJob (⟨[]⟩ : Env Nat) ⟨0, [], [], []⟩ c1Rdd c1Func [0, 1, 2] false true
      10 c1Events).1.Perm [3, 7, 11] := by
  have hd : (runJob (⟨[]⟩ : Env Nat) ⟨0, [], [], []⟩ c1Rdd c1Func [0, 1, 2]
      false true 10 c1Events).2.2 = .cluster (.done c1FinalState) := by
    simp [c1FinalState, c1Out, runJob, runJobCond, runJobGuard, runJobSetup,
      runJobLoop, runJobCfg, initialLoopState, newStage, getParentStages,
      parentVisit, parentVisitDeps, getShuffleMapStage, getMissingParentStages,
      missingVisit, missingVisitDeps, getCacheLocs, Stage.make, alookup, aset,
      aerase, insertIfAbsent, submitStage, submitStageList, submitMissingTasks,
      finalTaskLoop, shuffleTaskLoop, runLoop, runLoopCont, handleEvent,
      handleStage, handlePending, dispatchEvent, dispatchSuccess, shuffleArm,
      resultStep, drainLoop, scanWaiting, RDD.id, RDD.deps, RDD.numParts,
      RDD.prefs, RDD.prefAt, RDD.iterAt, RDD.iterData, RDD.shouldCache,
      TaskResult.valueD, TaskResult.hostD, Stage.addOutputLoc,
      Stage.isAvailable, c1Rdd, c1Func, c1Events, List.range, List.range.loop]
  have h := runJob_results (⟨[]⟩ : Env Nat) ⟨0, [], [], []⟩ c1Rdd c1Func
    [0, 1, 2] false true 10 c1Events c1FinalState (by decide) (by decide) hd
  refine ⟨(h.1 rfl).trans (by decide), ?_⟩
  have hmap : (List.range ([0, 1, 2] : List Nat).length).map
      (runRval c1Rdd c1Func [0, 1, 2]) = [3, 7, 11] := by decide
  exact hmap ▸ h.2

set_option maxRecDepth 8192 in
/-- Witness for C9: in the same out-of-order run, the final buffer is
all-`None` and `lastFinished` has advanced to the partition count. -/
theorem runJob_final_buffer_drained_witness :
    c1FinalState.run.results.all (fun x => x.isNone) = true ∧
    c1FinalState.run.lastFinished = ([0, 1, 2] : List Nat).length := by
  have hd : (runJob (⟨[]⟩ : Env Nat) ⟨0, [], [], []⟩ c1Rdd c1Func [0, 1, 2]
      false true 10 c1Events).2.2 = .cluster (.done c1FinalState) := by
    simp [c1FinalState, c1Out, runJob, runJobCond, runJobGuard, runJobSetup,
      runJobLoop, runJobCfg, initialLoopState, newStage, getParentStages,
      parentVisit, parentVisitDeps, getShuffleMapStage, getMissingParentStages,
      missingVisit, missingVisitDeps, getCacheLocs, Stage.make, alookup, aset,
      aerase, insertIfAbsent, submitStage, submitStageList, submitMissingTasks,
      finalTaskLoop, shuffleTaskLoop, runLoop, runLoopCont, handleEvent,
      handleStage, handlePending, dispatchEvent, dispatchSuccess, shuffleArm,
      resultStep, drainLoop, scanWaiting, RDD.id, RDD.deps, RDD.numParts,
      RDD.prefs, RDD.prefAt, RDD.iterAt, RDD.iterData, RDD.shouldCache,
      TaskResult.valueD, TaskResult.hostD, Stage.addOutputLoc,
      Stage.isAvailable, c1Rdd, c1Func, c1Events, List.range, List.range.loop]
  exact runJob_final_buffer_drained (⟨[]⟩ : Env Nat) ⟨0, [], [], []⟩ c1Rdd
    c1Func [0, 1, 2] false 10 c1Events c1FinalState (by decide) (by decide) hd

/-! ## MesosScheduler: cluster resource scheduling (schedule.py lines 440-810)

Resource quantities (Python floats) are embedded as exact rationals `ℚ`;
the only arithmetic the source performs on them is `+`, `-`, `min` and
comparisons, which ℚ models exactly. -/

/-- `MAX_FAILED = 3` (line 31). -/
def MAX_FAILED : Nat := 3

/-- `EXECUTOR_MEMORY = 64` (line 32). -/
def EXECUTOR_MEMORY : ℚ := 64

/-- The float tolerance `1e-4` of line 627. -/
def EPS : ℚ := 1 / 10000

/-- A Mesos resource offer, with the fields `resourceOffers` reads:
`o.id.value`, `o.slave_id.value`, `o.hostname`,
`getResource(o.resources, 'cpus')`, `getResource(o.resources, 'mem')` and
`getAttribute(o.attributes, 'group')` (absent attribute = `none`). -/
structure Offer where
  offerId : Nat
  slaveId : String
  hostname : String
  cpus : ℚ
  mem : ℚ
  groupAttr : Option String
  deriving DecidableEq

/-- The mutable `MesosScheduler` fields the verified callbacks touch
(`__init__`, lines 446-449 and 468-469): `task_per_node = options.parallel
or 8`, `cpus = options.cpus`, `mem = options.mem`, `group = options.group`,
and the dicts `slaveTasks`, `slaveFailed`, `taskIdToJobId`,
`taskIdToSlaveId`, `jobTasks`.  Task ids `"%s:%s:%s" % (job.id, t.id,
t.tried)` are modelled as the triple they encode. -/
structure MState where
  task_per_node : Nat
  cpus : ℚ
  mem : ℚ
  group : List String
  slaveTasks : List (String × Nat)
  slaveFailed : List (String × Nat)
  taskIdToJobId : List ((Nat × Nat × Nat) × Nat)
  taskIdToSlaveId : List ((Nat × Nat × Nat) × String)
  jobTasks : List (Nat × List (Nat × Nat × Nat))
  deriving DecidableEq

/-- Modelled from the spec: the task description `t` returned by
`job.slaveOffer` (job.py is not in this repository); `resourceOffers` reads
`t.id`, `t.tried`, `t.cpus`, `t.mem`. -/
structure TaskReq where
  id : Nat
  tried : Nat
  cpus : ℚ
  mem : ℚ
  deriving DecidableEq

/-- Ghost record of one task launch inside `resourceOffers` (lines 629-643):
the offer it used, the values of `cpus[i]` / `mems[i]` passed to
`job.slaveOffer`, and the value stored into `slaveTasks[sid]` by line 640. -/
structure Launch where
  offerIdx : Nat
  offerId : Nat
  slaveId : String
  groupAttr : Option String
  jobId : Nat
  taskId : Nat
  tried : Nat
  cpusBefore : ℚ
  memBefore : ℚ
  slaveTasksAfter : Nat
  deriving DecidableEq

/-- Python `(x or 'none')` for the group attribute of line 621: `None` and
the empty string are falsy. -/
def orNoneStr : Option String → String
  | none => "none"
  | some s => if s = "" then "none" else s

/-- The state mutated by the offer-matching loop of `resourceOffers`: the
`cpus` / `mems` arrays of lines 607-611 and the scheduler dicts, plus the
ghost launch trace. -/
structure ROState (J : Type) where
  cpusArr : List ℚ
  memsArr : List ℚ
  slaveTasks : List (String × Nat)
  taskIdToJobId : List ((Nat × Nat × Nat) × Nat)
  taskIdToSlaveId : List ((Nat × Nat × Nat) × String)
  jobTasks : List (Nat × List (Nat × Nat × Nat))
  launches : List Launch
  deriving DecidableEq

/-- One iteration of the `for i,o in enumerate(offers)` body (lines
619-643), for the job `jobId` in state `j`.  The four `continue` guards are
taken in source order; `slaveOffer` abstracts `job.slaveOffer(str(o.hostname),
cpus[i], mems[i])` (job.py is not in this repository), returning the task
`t` and the job's next state, or `none` for Python's falsy `t`. -/
def offerStep {J : Type} (ms : MState)
    (slaveOffer : J → String → ℚ → ℚ → Option (TaskReq × J))
    (jobId : Nat) (j : J) (st : ROState J) (launched : Bool)
    (i : Nat) (o : Offer) : J × ROState J × Bool :=
  if ms.group ≠ [] ∧ orNoneStr o.groupAttr ∉ ms.group then (j, st, launched)
  else if MAX_FAILED ≤ (alookup ms.slaveFailed o.slaveId).getD 0 then (j, st, launched)
  else if ms.task_per_node ≤ (alookup st.slaveTasks o.slaveId).getD 0 then (j, st, launched)
  else if st.memsArr.getD i 0 < ms.mem ∨ st.cpusArr.getD i 0 + EPS < ms.cpus then
    (j, st, launched)
  else
    match slaveOffer j o.hostname (st.cpusArr.getD i 0) (st.memsArr.getD i 0) with
    | none => (j, st, launched)
    | some (t, j2) =>
      (j2,
       { cpusArr := st.cpusArr.set i
           (st.cpusArr.getD i 0 - min (st.cpusArr.getD i 0) t.cpus)
         memsArr := st.memsArr.set i (st.memsArr.getD i 0 - t.mem)
         slaveTasks := aset st.slaveTasks o.slaveId
           ((alookup st.slaveTasks o.slaveId).getD 0 + 1)
         taskIdToJobId := aset st.taskIdToJobId (jobId, t.id, t.tried) jobId
         taskIdToSlaveId := aset st.taskIdToSlaveId (jobId, t.id, t.tried) o.slaveId
         jobTasks := aset st.jobTasks jobId
           ((jobId, t.id, t.tried) :: (alookup st.jobTasks jobId).getD [])
         launches := st.launches ++
           [⟨i, o.offerId, o.slaveId, o.groupAttr, jobId, t.id, t.tried,
             st.cpusArr.getD i 0, st.memsArr.getD i 0,
             (alookup st.slaveTasks o.slaveId).getD 0 + 1⟩] },
       true)

/-- The full `for i,o in enumerate(offers)` pass of lines 619-643. -/
def offerPass {J : Type} (ms : MState)
    (slaveOffer : J → String → ℚ → ℚ → Option (TaskReq × J)) (jobId : Nat) :
    List (Nat × Offer) → J → ROState J → Bool → J × ROState J × Bool
  | [], j, st, launched => (j, st, launched)
  | (i, o) :: rest, j, st, launched =>
    match offerStep ms slaveOffer jobId j st launched i o with
    | (j2, st2, l2) => offerPass ms slaveOffer jobId rest j2 st2 l2

/-- The `while True: launchedTask = False; ...; if not launchedTask: break`
loop of lines 617-646, with explicit fuel (running out of fuel stops the
loop early, which only truncates the launch trace). -/
def offerWhile {J : Type} (ms : MState)
    (slaveOffer : J → String → ℚ → ℚ → Option (TaskReq × J)) (jobId : Nat)
    (offersE : List (Nat × Offer)) : Nat → J → ROState J → J × ROState J
  | 0, j, st => (j, st)
  | fuel + 1, j, st =>
    match offerPass ms slaveOffer jobId offersE j st false with
    | (j2, st2, launched) =>
      if launched then offerWhile ms slaveOffer jobId offersE fuel j2 st2
      else (j2, st2)

/-- The `for job in self.activeJobsQueue` loop of line 616, threading the
mutated arrays and dicts from job to job and returning the jobs' final
states. -/
def jobsLoop {J : Type} (ms : MState)
    (slaveOffer : J → String → ℚ → ℚ → Option (TaskReq × J))
    (offersE : List (Nat × Offer)) (fuel : Nat) :
    List (Nat × J) → ROState J → List (Nat × J) × ROState J
  | [], st => ([], st)
  | (jid, j) :: rest, st =>
    match offerWhile ms slaveOffer jid offersE fuel j st with
    | (j2, st2) =>
      match jobsLoop ms slaveOffer offersE fuel rest st2 with
      | (js, st3) => ((jid, j2) :: js, st3)

/-- Result of one `resourceOffers` call: either every offer was declined
with `refuse_seconds = 60*5` because there is no active job (lines 599-603),
or the loop ran; `initCpus` / `initMems` are the arrays computed by lines
607-611 before the loop. -/
inductive ROResult (J : Type) where
  | declinedAll (refuseSeconds : Nat)
  | offered (initCpus initMems : List ℚ) (jobs : List (Nat × J))
      (st : ROState J) (refuseSeconds : Nat)
  deriving DecidableEq

/-- `MesosScheduler.resourceOffers` (lines 596-657).  `jobs` is
`activeJobsQueue` (empty exactly when `activeJobs` is empty, which the
scheduler maintains); `offers` is taken in post-`random.shuffle` order, so
quantifying over all `offers` lists covers the shuffle.  Line 609's
`o.slave_id.value not in self.slaveTasks and EXECUTOR_MEMORY or 0` is the
key-presence test on the entry-time `slaveTasks`, performed before the loop
runs. -/
def cpusUpfront (offers : List Offer) : List ℚ :=
  offers.map (fun o => o.cpus)

/-- The `mems` array of lines 608-611: each offer's memory, minus
`EXECUTOR_MEMORY` when the offer's slave has no `slaveTasks` entry
(`o.slave_id.value not in self.slaveTasks and EXECUTOR_MEMORY or 0`). -/
def memsUpfront (ms : MState) (offers : List Offer) : List ℚ :=
  offers.map (fun o => o.mem -
    (if alookup ms.slaveTasks o.slaveId = none then EXECUTOR_MEMORY else 0))

/-- The loop state as of line 615: the upfront arrays, the scheduler dicts
at call entry, and an empty launch trace. -/
def initROState {J : Type} (ms : MState) (offers : List Offer) : ROState J :=
  { cpusArr := cpusUpfront offers
    memsArr := memsUpfront ms offers
    slaveTasks := ms.slaveTasks
    taskIdToJobId := ms.taskIdToJobId
    taskIdToSlaveId := ms.taskIdToSlaveId
    jobTasks := ms.jobTasks
    launches := [] }

def resourceOffers {J : Type} (ms : MState)
    (slaveOffer : J → String → ℚ → ℚ → Option (TaskReq × J))
    (jobs : List (Nat × J)) (offers : List Offer) (fuel : Nat) : ROResult J :=
  if jobs.isEmpty then .declinedAll (60 * 5)
  else
    match jobsLoop ms slaveOffer offers.enum fuel jobs (initROState ms offers) with
    | (js, st) => .offered (cpusUpfront offers) (memsUpfront ms offers) js st 5

/-- The launch trace of a `resourceOffers` call (empty when declined). -/
def ROResult.launches {J : Type} : ROResult J → List Launch
  | .declinedAll _ => []
  | .offered _ _ _ st _ => st.launches

/-- The `mems` array computed by lines 608-611 (empty when declined). -/
def ROResult.initMems {J : Type} : ROResult J → List ℚ
  | .declinedAll _ => []
  | .offered _ m _ _ _ => m

/-- The `slaveTasks` dict after the call (unchanged when declined). -/
def ROResult.slaveTasksOut {J : Type} (ms : MState) : ROResult J → List (String × Nat)
  | .declinedAll _ => ms.slaveTasks
  | .offered _ _ _ st _ => st.slaveTasks

/-- `MesosScheduler.executorLost` (lines 800-802): the unguarded
`del self.slaveTasks[slaveId.value]` raises `KeyError` when the key is
absent. -/
def executorLost (ms : MState) (slaveId : String) : Except String MState :=
  match alookup ms.slaveTasks slaveId with
  | none => .error "KeyError"
  | some _ => .ok { ms with slaveTasks := aerase ms.slaveTasks slaveId }

/-- `MesosScheduler.slaveLost` (lines 804-807):
`self.slaveTasks.pop(slave.value, 0)` tolerates a missing key, then
`self.slaveFailed[slave.value] = MAX_FAILED`. -/
def slaveLost (ms : MState) (slaveId : String) : MState :=
  { ms with
    slaveTasks := aerase ms.slaveTasks slaveId
    slaveFailed := aset ms.slaveFailed slaveId MAX_FAILED }

/-! ### statusUpdate result decoding (lines 697-746) -/

/-- Mesos task states used by `statusUpdate`. -/
inductive TaskState where
  | running
  | finished
  | failed
  | killed
  | lost
  deriving DecidableEq

/-- An exception from `urllib.urlopen(data).read()`: line 729 catches
`IOError` (and retries); anything else propagates to the outer handler. -/
inductive FetchErr where
  | ioErr (msg : String)
  | otherErr (msg : String)
  deriving DecidableEq

/-- The text of the exception, as interpolated by `'load failed: %s' % e`. -/
def FetchErr.msg : FetchErr → String
  | .ioErr m => m
  | .otherErr m => m

/-- The fallible collaborators of the decode block (lines 721-743), over a
payload type `P` (bytes / URL strings), decoded values `V` and accumulator
updates `A`: `urlopen u k` is the `k`-th attempt of
`urllib.urlopen(u).read()`; `decompress`, `marshalLoads` (`marshal.loads`)
and `cPickleLoads` (`cPickle.loads` on a payload) may raise; `loadsOuter` is
`cPickle.loads(status.data)` producing the tuple
`(task_id, reason, result, accUpdate)` with `result` either `None` or
`(flag, data)`. -/
structure StatusEnv (P V A : Type) where
  urlopen : P → Nat → Except FetchErr P
  decompress : P → Except String P
  marshalLoads : P → Except String V
  cPickleLoads : P → Except String V
  loadsOuter : P → Except String (Nat × String × Option (Nat × P) × A)

/-- Lines 727-731: fetch the URL, retrying exactly once and only on
`IOError`; the second component counts the attempts made. -/
def fetchRetry {P V A : Type} (env : StatusEnv P V A) (url : P) :
    Except FetchErr P × Nat :=
  match env.urlopen url 0 with
  | .ok b => (.ok b, 1)
  | .error (.ioErr _) => (env.urlopen url 1, 2)
  | .error (.otherErr m) => (.error (.otherErr m), 1)

/-- Lines 733-737: decompress, then `marshal.loads` when `flag == 0` and
`cPickle.loads` otherwise. -/
def decodeInner {P V A : Type} (env : StatusEnv P V A) (flag : Nat) (data : P) :
    Except String V :=
  match env.decompress data with
  | .error m => .error m
  | .ok d2 => if flag = 0 then env.marshalLoads d2 else env.cPickleLoads d2

/-- Lines 724-737: the `if result:` block.  `none` (falsy `result`) is
passed through untouched; otherwise the payload is fetched when
`flag >= 2` (then treated as `flag - 2`), decompressed and decoded.  The
second component counts URL fetch attempts. -/
def decodeResult {P V A : Type} (env : StatusEnv P V A) :
    Option (Nat × P) → Except String (Option V) × Nat
  | none => (.ok none, 0)
  | some (flag, data) =>
    if 2 ≤ flag then
      match fetchRetry env data with
      | (.ok b, k) => ((decodeInner env (flag - 2) b).map some, k)
      | (.error e, k) => (.error e.msg, k)
    else ((decodeInner env flag data).map some, 0)

/-- What `statusUpdate` finally hands to `job.statusUpdate` for a
non-RUNNING update (lines 721-746): `update` is the successful delivery of
line 738 (its task id comes from the decoded payload), `failedLoad` is the
downgraded delivery of line 743 (state forced to `TASK_FAILED` with a
`'load failed: %s'` diagnostic), and `raw` is line 746 (killed / lost / no
data: the raw `status.data` is passed through). -/
inductive Delivery (P V A : Type) where
  | update (taskId tried : Nat) (state : TaskState) (reason : String)
      (result : Option V) (acc : A)
  | failedLoad (taskId tried : Nat) (state : TaskState) (msg : String)
  | raw (taskId tried : Nat) (state : TaskState) (data : Option P)
  deriving DecidableEq

/-- Lines 721-746: decode and deliver a terminal status update, given the
task id and attempt parsed from the wire id, the reported state and
`status.data`.  Returns the delivery and the number of URL fetch attempts
performed. -/
def terminalDelivery {P V A : Type} (env : StatusEnv P V A)
    (taskId tried : Nat) (state : TaskState) (data : Option P) :
    Delivery P V A × Nat :=
  match data with
  | none => (.raw taskId tried state none, 0)
  | some d =>
    if state = .finished ∨ state = .failed then
      match env.loadsOuter d with
      | .error e => (.failedLoad taskId tried .failed ("load failed: " ++ e), 0)
      | .ok (tid2, reason, result, acc) =>
        match decodeResult env result with
        | (.ok r, k) => (.update tid2 tried state reason r acc, k)
        | (.error e, k) => (.failedLoad tid2 tried .failed ("load failed: " ++ e), k)
    else (.raw taskId tried state (some d), 0)

/-! ### C10: executorLost vs slaveLost -/

/-- C10: `executorLost` deletes the slave's `slaveTasks` entry with an
unguarded `del`, so it raises `KeyError` exactly when the reported slave has
no entry in `slaveTasks`; `slaveLost` instead removes the entry with a
defaulted `pop` (never raising) and pins `slaveFailed[slave]` to
`MAX_FAILED`. -/
theorem executorLost_vs_slaveLost (ms : MState) (v : String) :
    (executorLost ms v = .error "KeyError" ↔ alookup ms.slaveTasks v = none) ∧
    (∀ n, alookup ms.slaveTasks v = some n →
      executorLost ms v = .ok { ms with slaveTasks := aerase ms.slaveTasks v }) ∧
    alookup (slaveLost ms v).slaveTasks v = none ∧
    alookup (slaveLost ms v).slaveFailed v = some MAX_FAILED := by
  refine ⟨⟨?_, ?_⟩, ?_, ?_, ?_⟩
  · intro h
    cases hl : alookup ms.slaveTasks v with
    | none => rfl
    | some n =>
      rw [executorLost, hl] at h
      exact Except.noConfusion h
  · intro h
    rw [executorLost, h]
  · intro n h
    rw [executorLost, h]
  · show alookup (aerase ms.slaveTasks v) v = none
    rw [alookup_aerase]
    simp
  · exact alookup_aset_self _ _ _

def c10Ms : MState :=
  { task_per_node := 8
    cpus := 1
    mem := 10
    group := []
    slaveTasks := [("t", 2)]
    slaveFailed := []
    taskIdToJobId := []
    taskIdToSlaveId := []
    jobTasks := [] }

/-- Witness for C10: with `slaveTasks = {"t": 2}`, `executorLost` raises for
the unknown slave `"s"`, succeeds for `"t"`, and `slaveLost "s"` pins
`slaveFailed["s"]` to `MAX_FAILED` without raising. -/
theorem executorLost_vs_slaveLost_witness :
    executorLost c10Ms "s" = .error "KeyError" ∧
    executorLost c10Ms "t" =
      .ok { c10Ms with slaveTasks := aerase c10Ms.slaveTasks "t" } ∧
    alookup (slaveLost c10Ms "s").slaveFailed "s" = some MAX_FAILED :=
  ⟨(executorLost_vs_slaveLost c10Ms "s").1.mpr rfl,
   (executorLost_vs_slaveLost c10Ms "t").2.1 2 rfl,
   (executorLost_vs_slaveLost c10Ms "s").2.2.2⟩

/-! ### C6: the launch guards of resourceOffers -/

/-- Launches only accumulate: every launch recorded by `offerStep` is either
an earlier one or was made with all four guards of lines 621-627 satisfied. -/
theorem offerStep_launches {J : Type} (ms : MState)
    (so : J → String → ℚ → ℚ → Option (TaskReq × J)) (jobId : Nat)
    (j : J) (st : ROState J) (launched : Bool) (i : Nat) (o : Offer)
    (L : Launch) (hL : L ∈ (offerStep ms so jobId j st launched i o).2.1.launches) :
    L ∈ st.launches ∨
      ((ms.group ≠ [] → orNoneStr L.groupAttr ∈ ms.group) ∧
       (alookup ms.slaveFailed L.slaveId).getD 0 < MAX_FAILED ∧
       L.slaveTasksAfter ≤ ms.task_per_node ∧
       ms.mem ≤ L.memBefore ∧
       ms.cpus ≤ L.cpusBefore + EPS) := by
  rw [offerStep] at hL
  by_cases h1 : ms.group ≠ [] ∧ orNoneStr o.groupAttr ∉ ms.group
  · rw [if_pos h1] at hL
    exact .inl hL
  · rw [if_neg h1] at hL
    by_cases h2 : MAX_FAILED ≤ (alookup ms.slaveFailed o.slaveId).getD 0
    · rw [if_pos h2] at hL
      exact .inl hL
    · rw [if_neg h2] at hL
      by_cases h3 : ms.task_per_node ≤ (alookup st.slaveTasks o.slaveId).getD 0
      · rw [if_pos h3] at hL
        exact .inl hL
      · rw [if_neg h3] at hL
        by_cases h4 : st.memsArr.getD i 0 < ms.mem ∨ st.cpusArr.getD i 0 + EPS < ms.cpus
        · rw [if_pos h4] at hL
          exact .inl hL
        · rw [if_neg h4] at hL
          push_neg at h4
          cases hso : so j o.hostname (st.cpusArr.getD i 0) (st.memsArr.getD i 0) with
          | none =>
            rw [hso] at hL
            exact .inl hL
          | some p =>
            obtain ⟨t, j2⟩ := p
            rw [hso] at hL
            simp only [List.mem_append, List.mem_singleton] at hL
            rcases hL with h | h
            · exact .inl h
            · subst h
              refine .inr ⟨?_, ?_, ?_, h4.1, h4.2⟩
              · intro hg
                by_contra hmem
                exact h1 ⟨hg, hmem⟩
              · show (alookup ms.slaveFailed o.slaveId).getD 0 < MAX_FAILED
                omega
              · show (alookup st.slaveTasks o.slaveId).getD 0 + 1 ≤ ms.task_per_node
                omega

theorem offerPass_launches {J : Type} (ms : MState)
    (so : J → String → ℚ → ℚ → Option (TaskReq × J)) (jobId : Nat) :
    ∀ (es : List (Nat × Offer)) (j : J) (st : ROState J) (launched : Bool)
      (L : Launch),
      L ∈ (offerPass ms so jobId es j st launched).2.1.launches →
      L ∈ st.launches ∨
        ((ms.group ≠ [] → orNoneStr L.groupAttr ∈ ms.group) ∧
         (alookup ms.slaveFailed L.slaveId).getD 0 < MAX_FAILED ∧
         L.slaveTasksAfter ≤ ms.task_per_node ∧
         ms.mem ≤ L.memBefore ∧
         ms.cpus ≤ L.cpusBefore + EPS) := by
  intro es
  induction es with
  | nil =>
    intro j st launched L hL
    exact .inl hL
  | cons p rest ih =>
    obtain ⟨i, o⟩ := p
    intro j st launched L hL
    rw [offerPass] at hL
    cases hstep : offerStep ms so jobId j st launched i o with
    | mk j2 q =>
      obtain ⟨st2, l2⟩ := q
      rw [hstep] at hL
      rcases ih j2 st2 l2 L hL with h | h
      · exact offerStep_launches ms so jobId j st launched i o L
          (by rw [hstep]; exact h)
      · exact .inr h

theorem offerWhile_launches {J : Type} (ms : MState)
    (so : J → String → ℚ → ℚ → Option (TaskReq × J)) (jobId : Nat)
    (offersE : List (Nat × Offer)) :
    ∀ (fuel : Nat) (j : J) (st : ROState J) (L : Launch),
      L ∈ (offerWhile ms so jobId offersE fuel j st).2.launches →
      L ∈ st.launches ∨
        ((ms.group ≠ [] → orNoneStr L.groupAttr ∈ ms.group) ∧
         (alookup ms.slaveFailed L.slaveId).getD 0 < MAX_FAILED ∧
         L.slaveTasksAfter ≤ ms.task_per_node ∧
         ms.mem ≤ L.memBefore ∧
         ms.cpus ≤ L.cpusBefore + EPS) := by
  intro fuel
  induction fuel with
  | zero =>
    intro j st L hL
    exact .inl hL
  | succ f ih =>
    intro j st L hL
    cases hp : offerPass ms so jobId offersE j st false with
    | mk j2 q =>
      obtain ⟨st2, launched⟩ := q
      have heq : offerWhile ms so jobId offersE (f + 1) j st =
          if launched then offerWhile ms so jobId offersE f j2 st2
          else (j2, st2) := by
        rw [offerWhile, hp]
      rw [heq] at hL
      by_cases hb : launched = true
      · rw [if_pos hb] at hL
        rcases ih j2 st2 L hL with h | h
        · exact offerPass_launches ms so jobId offersE j st false L
            (by rw [hp]; exact h)
        · exact .inr h
      · rw [if_neg hb] at hL
        exact offerPass_launches ms so jobId offersE j st false L
          (by rw [hp]; exact hL)

theorem jobsLoop_launches {J : Type} (ms : MState)
    (so : J → String → ℚ → ℚ → Option (TaskReq × J))
    (offersE : List (Nat × Offer)) (fuel : Nat) :
    ∀ (jobs : List (Nat × J)) (st : ROState J) (L : Launch),
      L ∈ (jobsLoop ms so offersE fuel jobs st).2.launches →
      L ∈ st.launches ∨
        ((ms.group ≠ [] → orNoneStr L.groupAttr ∈ ms.group) ∧
         (alookup ms.slaveFailed L.slaveId).getD 0 < MAX_FAILED ∧
         L.slaveTasksAfter ≤ ms.task_per_node ∧
         ms.mem ≤ L.memBefore ∧
         ms.cpus ≤ L.cpusBefore + EPS) := by
  intro jobs
  induction jobs with
  | nil =>
    intro st L hL
    exact .inl hL
  | cons p rest ih =>
    obtain ⟨jid, j⟩ := p
    intro st L hL
    cases hw : offerWhile ms so jid offersE fuel j st with
    | mk j2 st2 =>
      have heq : jobsLoop ms so offersE fuel ((jid, j) :: rest) st =
          ((jid, j2) :: (jobsLoop ms so offersE fuel rest st2).1,
           (jobsLoop ms so offersE fuel rest st2).2) := by
        rw [jobsLoop, hw]
      rw [heq] at hL
      rcases ih st2 L hL with h | h
      · exact offerWhile_launches ms so jid offersE fuel j st L
          (by rw [hw]; exact h)
      · exact .inr h

/-- C6: in `resourceOffers` with active jobs, every launched task passed all
four guards of lines 621-627 at its launch instant: the offer's group
attribute is in the configured group set (when one is configured), the
slave has fewer than `MAX_FAILED` recorded failures, the value stored into
`slaveTasks[sid]` by the launch (previous count + 1) does not exceed
`task_per_node`, and the offer's remaining memory / cpus (the values handed
to `job.slaveOffer`) satisfy `mem >= self.mem` and
`cpus + 1e-4 >= self.cpus`. -/
theorem resourceOffers_launch_guards {J : Type} (ms : MState)
    (so : J → String → ℚ → ℚ → Option (TaskReq × J))
    (jobs : List (Nat × J)) (offers : List Offer) (fuel : Nat) (L : Launch)
    (hL : L ∈ (resourceOffers ms so jobs offers fuel).launches) :
    (ms.group ≠ [] → orNoneStr L.groupAttr ∈ ms.group) ∧
    (alookup ms.slaveFailed L.slaveId).getD 0 < MAX_FAILED ∧
    L.slaveTasksAfter ≤ ms.task_per_node ∧
    ms.mem ≤ L.memBefore ∧
    ms.cpus ≤ L.cpusBefore + EPS := by
  rw [resourceOffers] at hL
  by_cases hj : jobs.isEmpty
  · rw [if_pos hj] at hL
    exact absurd hL (List.not_mem_nil L)
  · rw [if_neg hj] at hL
    cases hrun : jobsLoop ms so offers.enum fuel jobs (initROState ms offers) with
    | mk js st =>
      rw [hrun] at hL
      rcases jobsLoop_launches ms so offers.enum fuel jobs
        (initROState ms offers) L (by rw [hrun]; exact hL) with h | h
      · exact absurd h (List.not_mem_nil L)
      · exact h

def c6Ms : MState :=
  { task_per_node := 8
    cpus := 1
    mem := 10
    group := []
    slaveTasks := []
    slaveFailed := []
    taskIdToJobId := []
    taskIdToSlaveId := []
    jobTasks := [] }

def c6Offer : Offer :=
  { offerId := 0
    slaveId := "s"
    hostname := "h"
    cpus := 4
    mem := 100
    groupAttr := none }

/-- A job with `n` remaining tasks, each requesting 1 cpu / 10 mem. -/
def c6So : Nat → String → ℚ → ℚ → Option (TaskReq × Nat) :=
  fun n _ _ _ => if n = 0 then none else some (⟨n, 0, 1, 10⟩, n - 1)

def c6L : Launch :=
  { offerIdx := 0
    offerId := 0
    slaveId := "s"
    groupAttr := none
    jobId := 1
    taskId := 1
    tried := 0
    cpusBefore := 4
    memBefore := 36
    slaveTasksAfter := 1 }

/-- Witness for C6: a one-task job on a fresh slave launches once, with
36 = 100 - 64 memory remaining and `slaveTasks["s"]` set to 1. -/
theorem resourceOffers_launch_guards_witness :
    c6L ∈ (resourceOffers c6Ms c6So [(1, 1)] [c6Offer] 4).launches ∧
    c6L.slaveTasksAfter ≤ c6Ms.task_per_node ∧
    c6Ms.mem ≤ c6L.memBefore ∧
    c6Ms.cpus ≤ c6L.cpusBefore + EPS := by
  have hmem : c6L ∈ (resourceOffers c6Ms c6So [(1, 1)] [c6Offer] 4).launches := by
    norm_num [resourceOffers, jobsLoop, offerWhile, offerPass, offerStep,
      initROState, cpusUpfront, memsUpfront, ROResult.launches, c6Ms, c6So,
      c6Offer, c6L, alookup, aset, aerase, orNoneStr, EPS, EXECUTOR_MEMORY,
      MAX_FAILED, List.enum, List.enumFrom, List.set, List.getD]
  have h := resourceOffers_launch_guards c6Ms c6So [(1, 1)] [c6Offer] 4 c6L hmem
  exact ⟨hmem, h.2.2.1, h.2.2.2.1, h.2.2.2.2⟩

/-! ### C7: when EXECUTOR_MEMORY is deducted -/

/-- Every recorded launch has a `slaveTasks` entry (of at least 1) for its
slave in the loop state. -/
def SlaveEntryInv {J : Type} (st : ROState J) : Prop :=
  ∀ L ∈ st.launches, ∃ n, 1 ≤ n ∧ alookup st.slaveTasks L.slaveId = some n

theorem offerStep_slaveEntry {J : Type} (ms : MState)
    (so : J → String → ℚ → ℚ → Option (TaskReq × J)) (jobId : Nat)
    (j : J) (st : ROState J) (launched : Bool) (i : Nat) (o : Offer)
    (h : SlaveEntryInv st) :
    SlaveEntryInv (offerStep ms so jobId j st launched i o).2.1 := by
  rw [offerStep]
  by_cases h1 : ms.group ≠ [] ∧ orNoneStr o.groupAttr ∉ ms.group
  · rw [if_pos h1]
    exact h
  · rw [if_neg h1]
    by_cases h2 : MAX_FAILED ≤ (alookup ms.slaveFailed o.slaveId).getD 0
    · rw [if_pos h2]
      exact h
    · rw [if_neg h2]
      by_cases h3 : ms.task_per_node ≤ (alookup st.slaveTasks o.slaveId).getD 0
      · rw [if_pos h3]
        exact h
      · rw [if_neg h3]
        by_cases h4 : st.memsArr.getD i 0 < ms.mem ∨ st.cpusArr.getD i 0 + EPS < ms.cpus
        · rw [if_pos h4]
          exact h
        · rw [if_neg h4]
          cases hso : so j o.hostname (st.cpusArr.getD i 0) (st.memsArr.getD i 0) with
          | none => exact h
          | some p =>
            obtain ⟨t, j2⟩ := p
            intro L hL
            simp only [List.mem_append, List.mem_singleton] at hL
            rcases hL with hold | hnew
            · rcases h L hold with ⟨n, hn1, hn2⟩
              by_cases hs : L.slaveId = o.slaveId
              · refine ⟨(alookup st.slaveTasks o.slaveId).getD 0 + 1, by omega, ?_⟩
                show alookup (aset st.slaveTasks o.slaveId
                  ((alookup st.slaveTasks o.slaveId).getD 0 + 1)) L.slaveId = _
                rw [hs, alookup_aset_self]
              · refine ⟨n, hn1, ?_⟩
                show alookup (aset st.slaveTasks o.slaveId
                  ((alookup st.slaveTasks o.slaveId).getD 0 + 1)) L.slaveId = some n
                rw [alookup_aset_ne _ _ _ _ (fun he => hs he.symm), hn2]
            · subst hnew
              exact ⟨(alookup st.slaveTasks o.slaveId).getD 0 + 1, by omega,
                alookup_aset_self _ _ _⟩

theorem offerPass_slaveEntry {J : Type} (ms : MState)
    (so : J → String → ℚ → ℚ → Option (TaskReq × J)) (jobId : Nat) :
    ∀ (es : List (Nat × Offer)) (j : J) (st : ROState J) (launched : Bool),
      SlaveEntryInv st →
      SlaveEntryInv (offerPass ms so jobId es j st launched).2.1 := by
  intro es
  induction es with
  | nil =>
    intro j st launched h
    exact h
  | cons p rest ih =>
    obtain ⟨i, o⟩ := p
    intro j st launched h
    rw [offerPass]
    cases hstep : offerStep ms so jobId j st launched i o with
    | mk j2 q =>
      obtain ⟨st2, l2⟩ := q
      refine ih j2 st2 l2 ?_
      have := offerStep_slaveEntry ms so jobId j st launched i o h
      rw [hstep] at this
      exact this

theorem offerWhile_slaveEntry {J : Type} (ms : MState)
    (so : J → String → ℚ → ℚ → Option (TaskReq × J)) (jobId : Nat)
    (offersE : List (Nat × Offer)) :
    ∀ (fuel : Nat) (j : J) (st : ROState J),
      SlaveEntryInv st →
      SlaveEntryInv (offerWhile ms so jobId offersE fuel j st).2 := by
  intro fuel
  induction fuel with
  | zero =>
    intro j st h
    exact h
  | succ f ih =>
    intro j st h
    cases hp : offerPass ms so jobId offersE j st false with
    | mk j2 q =>
      obtain ⟨st2, launched⟩ := q
      have heq : offerWhile ms so jobId offersE (f + 1) j st =
          if launched then offerWhile ms so jobId offersE f j2 st2
          else (j2, st2) := by
        rw [offerWhile, hp]
      rw [heq]
      have hst2 : SlaveEntryInv st2 := by
        have := offerPass_slaveEntry ms so jobId offersE j st false h
        rw [hp] at this
        exact this
      by_cases hb : launched = true
      · rw [if_pos hb]
        exact ih j2 st2 hst2
      · rw [if_neg hb]
        exact hst2

theorem jobsLoop_slaveEntry {J : Type} (ms : MState)
    (so : J → String → ℚ → ℚ → Option (TaskReq × J))
    (offersE : List (Nat × Offer)) (fuel : Nat) :
    ∀ (jobs : List (Nat × J)) (st : ROState J),
      SlaveEntryInv st →
      SlaveEntryInv (jobsLoop ms so offersE fuel jobs st).2 := by
  intro jobs
  induction jobs with
  | nil =>
    intro st h
    exact h
  | cons p rest ih =>
    obtain ⟨jid, j⟩ := p
    intro st h
    cases hw : offerWhile ms so jid offersE fuel j st with
    | mk j2 st2 =>
      have heq : jobsLoop ms so offersE fuel ((jid, j) :: rest) st =
          ((jid, j2) :: (jobsLoop ms so offersE fuel rest st2).1,
           (jobsLoop ms so offersE fuel rest st2).2) := by
        rw [jobsLoop, hw]
      rw [heq]
      refine ih st2 ?_
      have := offerWhile_slaveEntry ms so jid offersE fuel j st h
      rw [hw] at this
      exact this

theorem getD_map_of_lt {α β : Type _} (f : α → β) (l : List α) (i : Nat)
    (hi : i < l.length) (d : β) : (l.map f).getD i d = f (l.get ⟨i, hi⟩) := by
  rw [List.getD_eq_getElem?_getD, List.getElem?_map, List.getElem?_eq_getElem hi]
  rfl

def c7Ms : MState :=
  { task_per_node := 8
    cpus := 1
    mem := 10
    group := []
    slaveTasks := []
    slaveFailed := []
    taskIdToJobId := []
    taskIdToSlaveId := []
    jobTasks := [] }

def c7Offer1 : Offer :=
  { offerId := 0
    slaveId := "s"
    hostname := "h"
    cpus := 4
    mem := 100
    groupAttr := none }

def c7Offer2 : Offer :=
  { offerId := 1
    slaveId := "s"
    hostname := "h"
    cpus := 4
    mem := 80
    groupAttr := none }

/-- An active job that never accepts an offer (`job.slaveOffer` returns a
falsy task). -/
def c7So : Unit → String → ℚ → ℚ → Option (TaskReq × Unit) :=
  fun _ _ _ _ => none

def c7R1 : ROResult Unit :=
  resourceOffers c7Ms c7So [(1, ())] [c7Offer1, c7Offer2] 4

def c7Ms2 : MState :=
  { c7Ms with slaveTasks := c7R1.slaveTasksOut c7Ms }

def c7R2 : ROResult Unit :=
  resourceOffers c7Ms2 c7So [(1, ())] [c7Offer1] 4

/-- C7 is refuted: the `EXECUTOR_MEMORY` deduction of lines 608-611 is made
per offer per `resourceOffers` call whenever the slave has no `slaveTasks`
entry, not once per slave at its first task launch.  Here no task is ever
launched on slave `"s"`, yet one call with two offers from `"s"` charges it
twice (`[100-64, 80-64]`), and a followup call charges it again. -/
theorem executor_memory_not_once_per_slave :
    c7R1.launches = [] ∧
    c7R1.initMems = [36, 16] ∧
    c7R2.launches = [] ∧
    c7R2.initMems = [36] := by
  refine ⟨?_, ?_, ?_, ?_⟩ <;>
    norm_num [c7R1, c7R2, c7Ms, c7Ms2, c7So, c7Offer1, c7Offer2,
      resourceOffers, jobsLoop, offerWhile, offerPass, offerStep, initROState,
      cpusUpfront, memsUpfront, ROResult.launches, ROResult.initMems,
      ROResult.slaveTasksOut, alookup, orNoneStr, EPS, EXECUTOR_MEMORY,
      MAX_FAILED, List.enum, List.enumFrom, List.getD]

/-- C7 (corrected): in a `resourceOffers` call with active jobs, offer `i`
is charged `EXECUTOR_MEMORY` in the upfront `mems` array exactly when its
slave has no `slaveTasks` entry at call entry (whether or not a task ever
launched there); and every slave that launches a task during the call ends
the call with a `slaveTasks` entry of at least 1, so subsequent calls do not
charge it again while that entry persists. -/
theorem resourceOffers_overhead_corrected {J : Type} (ms : MState)
    (so : J → String → ℚ → ℚ → Option (TaskReq × J))
    (jobs : List (Nat × J)) (offers : List Offer) (fuel : Nat)
    (hjobs : jobs ≠ []) :
    (∀ i (hi : i < offers.length),
      (resourceOffers ms so jobs offers fuel).initMems.getD i 0 =
        (offers.get ⟨i, hi⟩).mem -
          (if alookup ms.slaveTasks (offers.get ⟨i, hi⟩).slaveId = none
           then EXECUTOR_MEMORY else 0)) ∧
    (∀ L ∈ (resourceOffers ms so jobs offers fuel).launches,
      ∃ n, 1 ≤ n ∧
        alookup ((resourceOffers ms so jobs offers fuel).slaveTasksOut ms)
          L.slaveId = some n) := by
  have hne : jobs.isEmpty = false := by
    cases jobs with
    | nil => exact absurd rfl hjobs
    | cons a l => rfl
  cases hrun : jobsLoop ms so offers.enum fuel jobs (initROState ms offers) with
  | mk js st =>
    have h1 : resourceOffers ms so jobs offers fuel =
        .offered (cpusUpfront offers) (memsUpfront ms offers) js st 5 := by
      rw [resourceOffers, if_neg (by simp [hne]), hrun]
    constructor
    · intro i hi
      rw [h1]
      show (memsUpfront ms offers).getD i 0 = _
      rw [memsUpfront, getD_map_of_lt _ _ _ hi]
    · intro L hL
      rw [h1] at hL
      rw [h1]
      have hInv : SlaveEntryInv st := by
        have h0 : SlaveEntryInv (initROState ms offers (J := J)) :=
          fun L hL => absurd hL (List.not_mem_nil L)
        have := jobsLoop_slaveEntry ms so offers.enum fuel jobs
          (initROState ms offers) h0
        rw [hrun] at this
        exact this
      exact hInv L hL

/-- Witness for C7 (corrected): in the two-offer call of the counterexample,
offer 0 is charged because `"s"` has no `slaveTasks` entry. -/
theorem resourceOffers_overhead_corrected_witness :
    (resourceOffers c7Ms c7So [(1, ())] [c7Offer1, c7Offer2] 4).initMems.getD 0 0 = 36 := by
  have h := resourceOffers_overhead_corrected c7Ms c7So [(1, ())]
    [c7Offer1, c7Offer2] 4 (by decide)
  have h0 := h.1 0 (by norm_num)
  rw [h0]
  norm_num [c7Offer1, c7Ms, alookup, EXECUTOR_MEMORY]

/-! ### C8: decoding of terminal status updates -/

/-- C8: for a terminal state (FINISHED / FAILED) with data present,
`statusUpdate` deserializes the data as `(task_id, reason, result,
accUpdate)` and then: (a) an outer deserialization failure is delivered as
`TASK_FAILED` with a `'load failed:'` diagnostic; (b) a `None` result is
delivered unchanged with no fetch; (c) when `flag >= 2` the payload is a
URL fetched over HTTP — one attempt on success — and then treated exactly
as `flag - 2` on the fetched bytes; (d) an `IOError` on the first attempt
is retried exactly once (two attempts); (e) a non-I/O fetch error is not
retried; (f) when `flag < 2` no fetch happens; (g) the payload is
decompressed and then decoded with the fast codec (`marshal`) when
`flag == 0` and the general codec (`cPickle`) when `flag == 1`; (h) a
decoded result is delivered to `job.statusUpdate` under the payload's task
id with the reported state; (i) a failure in any decode step is delivered
as `TASK_FAILED` with a `'load failed:'` diagnostic. -/
theorem statusUpdate_decode {P V A : Type} (env : StatusEnv P V A)
    (taskId tried : Nat) (state : TaskState) (d : P)
    (hterm : state = .finished ∨ state = .failed) :
    (∀ e, env.loadsOuter d = .error e →
      terminalDelivery env taskId tried state (some d) =
        (.failedLoad taskId tried .failed ("load failed: " ++ e), 0)) ∧
    (∀ tid2 reason acc, env.loadsOuter d = .ok (tid2, reason, none, acc) →
      terminalDelivery env taskId tried state (some d) =
        (.update tid2 tried state reason none acc, 0)) ∧
    (∀ flag url b, 2 ≤ flag → env.urlopen url 0 = .ok b →
      decodeResult env (some (flag, url)) =
        ((decodeInner env (flag - 2) b).map some, 1)) ∧
    (∀ flag url m b, 2 ≤ flag →
      env.urlopen url 0 = .error (.ioErr m) → env.urlopen url 1 = .ok b →
      decodeResult env (some (flag, url)) =
        ((decodeInner env (flag - 2) b).map some, 2)) ∧
    (∀ flag url m, 2 ≤ flag → env.urlopen url 0 = .error (.otherErr m) →
      decodeResult env (some (flag, url)) = (.error m, 1)) ∧
    (∀ flag p, flag < 2 →
      decodeResult env (some (flag, p)) =
        ((decodeInner env flag p).map some, 0)) ∧
    (∀ p q, env.decompress p = .ok q →
      decodeInner env 0 p = env.marshalLoads q ∧
      decodeInner env 1 p = env.cPickleLoads q) ∧
    (∀ tid2 reason result acc v k,
      env.loadsOuter d = .ok (tid2, reason, result, acc) →
      decodeResult env result = (.ok v, k) →
      terminalDelivery env taskId tried state (some d) =
        (.update tid2 tried state reason v acc, k)) ∧
    (∀ tid2 reason result acc e k,
      env.loadsOuter d = .ok (tid2, reason, result, acc) →
      decodeResult env result = (.error e, k) →
      terminalDelivery env taskId tried state (some d) =
        (.failedLoad tid2 tried .failed ("load failed: " ++ e), k)) := by
  refine ⟨?_, ?_, ?_, ?_, ?_, ?_, ?_, ?_, ?_⟩
  · intro e he
    rw [terminalDelivery, if_pos hterm, he]
  · intro tid2 reason acc hok
    rw [terminalDelivery, if_pos hterm, hok]
    rfl
  · intro flag url b hflag hurl
    rw [decodeResult, if_pos hflag, fetchRetry, hurl]
  · intro flag url m b hflag hurl0 hurl1
    rw [decodeResult, if_pos hflag, fetchRetry, hurl0, hurl1]
  · intro flag url m hflag hurl0
    rw [decodeResult, if_pos hflag, fetchRetry, hurl0]
    rfl
  · intro flag p hflag
    rw [decodeResult, if_neg (by omega)]
  · intro p q hq
    constructor
    · rw [decodeInner, hq]
      rfl
    · rw [decodeInner, hq]
      rfl
  · intro tid2 reason result acc v k hok hdec
    have hstep : terminalDelivery env taskId tried state (some d) =
        match decodeResult env result with
        | (.ok r, k) => (.update tid2 tried state reason r acc, k)
        | (.error e, k) => (.failedLoad tid2 tried .failed ("load failed: " ++ e), k) := by
      rw [terminalDelivery, if_pos hterm, hok]
    rw [hstep, hdec]
  · intro tid2 reason result acc e k hok hdec
    have hstep : terminalDelivery env taskId tried state (some d) =
        match decodeResult env result with
        | (.ok r, k) => (.update tid2 tried state reason r acc, k)
        | (.error e, k) => (.failedLoad tid2 tried .failed ("load failed: " ++ e), k) := by
      rw [terminalDelivery, if_pos hterm, hok]
    rw [hstep, hdec]

/-- A concrete decode environment over `Nat` payloads: the first fetch
attempt times out with an `IOError`, the retry succeeds. -/
def c8Env : StatusEnv Nat Nat Nat :=
  { urlopen := fun u k => if k = 0 then .error (.ioErr "timeout") else .ok (u + 50)
    decompress := fun p => .ok (p * 2)
    marshalLoads := fun p => .ok (p + 1)
    cPickleLoads := fun p => .ok (p + 2)
    loadsOuter := fun d => .ok (d + 7, "ok", some (2, d), d) }

/-- Witness for C8: a FINISHED update whose payload tuple carries
`result = (2, url)`; the URL fetch fails once with an I/O error, is retried
once and succeeds, the fetched bytes are decompressed and marshal-decoded
(flag `2 - 2 = 0`) and the decoded value is delivered under the payload's
task id with two fetch attempts recorded. -/
theorem statusUpdate_decode_witness :
    terminalDelivery c8Env 5 1 .finished (some 3) =
      (.update 10 1 .finished "ok" (some 107) 3, 2) := by
  have h := statusUpdate_decode c8Env 5 1 TaskState.finished 3 (Or.inl rfl)
  have hd := h.2.2.2.1 2 3 "timeout" 53 (by omega) rfl rfl
  have hdec : decodeResult c8Env (some (2, 3)) = (.ok (some 107), 2) := by
    rw [hd]
    rfl
  exact h.2.2.2.2.2.2.2.1 10 "ok" (some (2, 3)) 3 (some 107) 2 rfl hdec

end DparkSchedule
